import Mathlib

/-!
pfs2utf8: a verification development

A shallow embedding of `pfs2utf8.c` (file-name classification, repair and
renaming) together with theorems about it.

Conventions of the embedding.

* A byte is a natural number below 256; a buffer is a `List Nat`.  A C string
  stored in a buffer ends at its first `0` byte, or at the end of the list when
  the list holds no `0` (the terminator is then implicit).  Every loop of the
  source that tests `*p` is a recursion that stops on `[]` and on a `0` byte.
* `int` variables are integers.  Names handed to the program are path
  components, far shorter than `INT_MAX` bytes, and fewer than `2^64` entries
  are ever visited, so `int` and `unsigned long long` arithmetic never wraps.
* `malloc` and `strdup` are taken to succeed.  Tracing written to `stderr`
  under `debug > 0` has no influence on control flow and is left out.
-/

namespace Pfs2utf8

/-! ## Buffers and the C library -/

/-- Contents of the C string stored at the start of a buffer: the bytes before
the first `0`. -/
def cstr : List Nat → List Nat
  | [] => []
  | b :: bs => if b = 0 then [] else b :: cstr bs

/-- Length of a C string: `strlen`. -/
def strlen : List Nat → Nat
  | [] => 0
  | b :: bs => if b = 0 then 0 else strlen bs + 1

/-- Scan of `strrchr(s, c)`: index of the last occurrence of `c` seen so far. -/
def strrchr_loop (c : Nat) : List Nat → Nat → Option Nat → Option Nat
  | [], _, acc => acc
  | b :: bs, i, acc =>
    if b = 0 then acc else strrchr_loop c bs (i + 1) (if b = c then some i else acc)

/-- Index of the last occurrence of the non-zero byte `c` in a C string:
`strrchr`. -/
def strrchr (s : List Nat) (c : Nat) : Option Nat :=
  strrchr_loop c s 0 none

/-- Comparison of two C strings, `strcmp`: the difference of the first pair of
bytes that differ, `0` when the strings are equal. -/
def strcmp : List Nat → List Nat → Int
  | [], [] => 0
  | [], b :: _ => -(b : Int)
  | a :: _, [] => (a : Int)
  | a :: l, b :: r => if a ≠ b then (a : Int) - (b : Int) else if a = 0 then 0 else strcmp l r

/-- A well-formed name: every element is a byte and none is the terminator. -/
def NulFree (s : List Nat) : Prop :=
  ∀ b ∈ s, 0 < b ∧ b < 256

instance (s : List Nat) : Decidable (NulFree s) := by
  unfold NulFree; infer_instance

/-! ## Encoding classifiers -/

/-- Body of the loop of `is_iso8859_1`. -/
def is_iso8859_1 : List Nat → Int
  | [] => 1
  | b :: bs =>
    if b = 0 then 1
    else if b < 32 ∨ (b ≥ 0x7F ∧ b ≤ 0xA0) then 0
    else is_iso8859_1 bs

/-- Source function `is_windows_1252` (not called by the program). -/
def is_windows_1252 : List Nat → Int
  | [] => 1
  | b :: bs =>
    if b = 0 then 1
    else if b < 32 ∨ b = 0x7F ∨ b = 0x81 ∨ b = 0x8D ∨ b = 0x8F ∨ b = 0x90 ∨ b = 0x9D then 0
    else is_windows_1252 bs

/-- The loop of `is_utf_8`, entered at `ip` with the current `state` and
`len`.  The end of the buffer and a `0` byte both leave the loop. -/
def is_utf_8_loop : List Nat → Int → Int → Int
  | [], state, _ => if state ≠ 0 then 0 else 1
  | b :: bs, state, len =>
    if b = 0 then (if state ≠ 0 then 0 else 1)
    else if b = 0xC0 ∨ b = 0xC1 ∨ b ≥ 0xF5 then 0
    else if state = 0 then
      if b ≥ 32 ∧ b ≤ 126 then is_utf_8_loop bs state len
      else if b &&& 0xFE = 0xFC then is_utf_8_loop bs 1 5
      else if b &&& 0xFC = 0xF8 then is_utf_8_loop bs 1 4
      else if b &&& 0xF8 = 0xF0 then is_utf_8_loop bs 1 3
      else if b &&& 0xF0 = 0xE0 then is_utf_8_loop bs 1 2
      else if b &&& 0xE0 = 0xC0 then is_utf_8_loop bs 1 1
      else 0
    else if state = 1 then
      if b &&& 0xC0 = 0x80 then
        is_utf_8_loop bs (if len - 1 = 0 then 0 else state) (len - 1)
      else 0
    else is_utf_8_loop bs state len

/-- Source function `is_utf_8`: `state = 0`, `len = 0` on entry. -/
def is_utf_8 (s : List Nat) : Int :=
  is_utf_8_loop s 0 0

/-- The loop of `is_ascii`; the argument `k` is `len + 1`, so `k = 0` is the
exit `len < 0` and index `len` is `k - 1`. -/
def is_ascii_loop (s : List Nat) : Nat → Int
  | 0 => 1
  | k + 1 =>
    let c := s.getD k 0
    if c = 0 then 1
    else if c < 32 ∨ c > 126 then 0
    else is_ascii_loop s k

/-- Source function `is_ascii`: the scan starts at index `strlen(s) - 1` and
runs backwards. -/
def is_ascii (s : List Nat) : Int :=
  is_ascii_loop s (strlen s)

/-! ## Repair -/

/-- The loop of `fix_invalid`: the bytes stored through `obp`. -/
def fix_invalid : List Nat → List Nat
  | [] => []
  | b :: bs =>
    if b = 0 then []
    else if b = 0x8E then 0xAE :: fix_invalid bs
    else if b = 0x90 then 39 :: fix_invalid bs
    else if b = 9 ∨ b = 13 ∨ b = 10 then b :: fix_invalid bs
    else if b > 0 ∧ b < 32 then fix_invalid bs
    else if b ≥ 0x7F ∧ b ≤ 0x9F then 63 :: fix_invalid bs
    else b :: fix_invalid bs

/-- Source function `is_whitespace`; `fix_ws_flag` is the global it reads. -/
def is_whitespace (fix_ws_flag : Int) (c : Nat) : Bool :=
  c = 32 ∨ c = 9 ∨ c = 0xA0 ∨ (fix_ws_flag > 2 ∧ (c = 10 ∨ c = 13))

/-- First loop of `fix_whitespace`: advance `ibp` over leading whitespace. -/
def skip_whitespace (fix_ws_flag : Int) : List Nat → List Nat
  | [] => []
  | b :: bs => if is_whitespace fix_ws_flag b then skip_whitespace fix_ws_flag bs else b :: bs

/-- Second loop of `fix_whitespace`: the bytes stored through `obp`. -/
def copy_whitespace (fix_ws_flag : Int) : List Nat → List Nat
  | [] => []
  | b :: bs =>
    if b = 0 then []
    else (if fix_ws_flag > 1 ∧ is_whitespace fix_ws_flag b then 32 else b)
      :: copy_whitespace fix_ws_flag bs

/-- Third loop of `fix_whitespace`: move `obp` back over trailing whitespace;
the argument is the offset `obp - outbuf`, and so is the result. -/
def trim_whitespace (fix_ws_flag : Int) (outbuf : List Nat) : Nat → Nat
  | 0 => 0
  | k + 1 =>
    if is_whitespace fix_ws_flag (outbuf.getD k 0) then trim_whitespace fix_ws_flag outbuf k
    else k + 1

/-- Source function `fix_whitespace`. -/
def fix_whitespace (fix_ws_flag : Int) (inbuf : List Nat) : List Nat :=
  let outbuf := copy_whitespace fix_ws_flag (skip_whitespace fix_ws_flag inbuf)
  outbuf.take (trim_whitespace fix_ws_flag outbuf outbuf.length)


/-! ## Environment: the file system -/

/-- Error numbers of `<errno.h>` that the modelled calls can store in `errno`. -/
inductive Errno
  | ENOENT
  | EEXIST
  | ELOOP
  | ENOTDIR
  | EISDIR
  | ENOTEMPTY
  deriving DecidableEq

/-- What a path names: a regular file, a directory, or a symbolic link holding
the path it points to. -/
inductive Node
  | file
  | dir
  | symlink (target : List Nat)
  deriving DecidableEq

/-- The file system: the entries that exist, keyed by path. -/
abbrev FS := List (List Nat × Node)

/-- The entry stored at a path itself, links not followed (as `lstat` sees it). -/
def FS.entry (fs : FS) (p : List Nat) : Option Node :=
  List.lookup p fs

/-- Resolution done by `stat(2)`: symbolic links are followed, at most `fuel`
of them in a row; a missing entry is `ENOENT`, too many links `ELOOP`. -/
def stat_follow (fs : FS) : Nat → List Nat → Except Errno Node
  | 0, _ => .error .ELOOP
  | fuel + 1, p =>
    match fs.entry p with
    | none => .error .ENOENT
    | some (.symlink target) => stat_follow fs fuel target
    | some nd => .ok nd

/-- Library call `stat(2)`, with the usual bound of 40 nested links. -/
def stat (fs : FS) (p : List Nat) : Except Errno Node :=
  stat_follow fs 40 p

/-- New key of an entry when `oldp` is renamed to `newp`: the entry itself
and everything below it move. -/
def rekey (oldp newp k : List Nat) : List Nat :=
  if k = oldp then newp
  else if (oldp ++ [47]).isPrefixOf k then newp ++ k.drop oldp.length
  else k

/-- File system after a successful `rename(oldp, newp)`: whatever was stored
at `newp` is replaced. -/
def FS.move (fs : FS) (oldp newp : List Nat) : FS :=
  (fs.filter (fun e => e.1 ≠ newp)).map (fun e => (rekey oldp newp e.1, e.2))

/-- Library call `rename(2)`: the link `newp` itself is replaced (it is not
followed); a directory only replaces an empty directory. -/
def sys_rename (fs : FS) (oldp newp : List Nat) : Except Errno FS :=
  match fs.entry oldp with
  | none => .error .ENOENT
  | some o =>
    if oldp = newp then .ok fs
    else match fs.entry newp with
      | none => .ok (fs.move oldp newp)
      | some .dir =>
        if o ≠ .dir then .error .EISDIR
        else if fs.any (fun e => (newp ++ [47]).isPrefixOf e.1) then .error .ENOTEMPTY
        else .ok (fs.move oldp newp)
      | some _ =>
        if o = .dir then .error .ENOTDIR else .ok (fs.move oldp newp)

/-! ## Environment: the converter -/

/-- Outcome of one `iconv(3)` call: the `size_t` it returns (`2^64 - 1` is the
error value `(size_t)-1`) and the bytes it stored in the output buffer. -/
structure IconvResult where
  ret : Nat
  out : List Nat

/-- Conversion loop of the descriptor opened for the default charset pair,
ISO8859-1 to UTF-8: a byte below `0x80` is copied, a byte `b` from `0x80` on
becomes `0xC0 | (b >> 6)`, `0x80 | (b & 0x3F)`; when the output buffer has no
room left the call stops with the error value. -/
def iconv_latin1_loop : List Nat → Nat → List Nat → IconvResult
  | [], _, acc => ⟨0, acc⟩
  | b :: bs, outleft, acc =>
    if b < 0x80 then
      if outleft < 1 then ⟨2 ^ 64 - 1, acc⟩
      else iconv_latin1_loop bs (outleft - 1) (acc ++ [b])
    else
      if outleft < 2 then ⟨2 ^ 64 - 1, acc⟩
      else iconv_latin1_loop bs (outleft - 2) (acc ++ [0xC0 ||| (b >>> 6), 0x80 ||| (b &&& 0x3F)])

/-- Model of `iconv` on the default descriptor: input bytes and size of the
output buffer. -/
def iconv_latin1 (inp : List Nat) (outlen : Nat) : IconvResult :=
  iconv_latin1_loop inp outlen []

/-- Source function `conv`, for an open descriptor `ic` whose `iconv` is the
parameter.  The test `iconv(...) < 0` compares the returned `size_t` with
zero. -/
def conv (iconv : List Nat → Nat → IconvResult) (inp : List Nat) : Option (List Nat) :=
  let r := iconv (inp.take (strlen inp)) 10240
  if (r.ret : Int) < 0 then none
  else some (cstr r.out)

/-! ## Program state -/

/-- Options set by `main` from the command line and read by the rest. -/
structure Config where
  verbose : Int
  nowrite : Int
  fix_flag : Int
  qp_flag : Int
  errexit_flag : Int
  fix_ws_flag : Int

/-- Entry kinds handed to the callback by `nftw` (`<ftw.h>`). -/
inductive FtwFlag
  | FTW_F
  | FTW_D
  | FTW_DNR
  | FTW_NS
  | FTW_SL
  | FTW_DP
  | FTW_SLN
  deriving DecidableEq

/-- Calls recorded in the order they are made. -/
inductive Call
  | fix_whitespace (s : List Nat)
  | fix_invalid (s : List Nat)
  | conv (s : List Nat)
  | rename_in_dir (dir old new : List Nat)
  | stat (p : List Nat)
  | rename (oldp newp : List Nat)
  deriving DecidableEq

/-- Error messages written to `stderr`. -/
inductive Diag
  | unable_to_convert (path name : List Nat)
  | rename_failed (rest last np : List Nat) (e : Option Errno)
  deriving DecidableEq

/-- The mutable globals of the program and the world around it. -/
structure State where
  nf : Nat
  nd : Nat
  ns : Nat
  nm : Nat
  n_ascii : Nat
  n_iso8859_1 : Nat
  n_utf_8 : Nat
  n_other : Nat
  n_fixed : Nat
  fs : FS
  errno : Option Errno
  logfile : List Nat
  stderr : List Diag
  calls : List Call
  deriving DecidableEq

/-- Append bytes to the log file. -/
def State.log (st : State) (bytes : List Nat) : State :=
  { st with logfile := st.logfile ++ bytes }

/-- Record a call. -/
def State.call (st : State) (c : Call) : State :=
  { st with calls := st.calls ++ [c] }

/-- Write an error message to `stderr`. -/
def State.diag (st : State) (d : Diag) : State :=
  { st with stderr := st.stderr ++ [d] }

/-- Increment `++nf`. -/
def State.inc_nf (st : State) : State := { st with nf := st.nf + 1 }

/-- Increment `++nd`. -/
def State.inc_nd (st : State) : State := { st with nd := st.nd + 1 }

/-- Increment `++ns`. -/
def State.inc_ns (st : State) : State := { st with ns := st.ns + 1 }

/-- Increment `++nm`. -/
def State.inc_nm (st : State) : State := { st with nm := st.nm + 1 }

/-- Increment `++n_ascii`. -/
def State.inc_ascii (st : State) : State := { st with n_ascii := st.n_ascii + 1 }

/-- Increment `++n_utf_8`. -/
def State.inc_utf_8 (st : State) : State := { st with n_utf_8 := st.n_utf_8 + 1 }

/-- Increment `++n_iso8859_1`. -/
def State.inc_iso8859_1 (st : State) : State := { st with n_iso8859_1 := st.n_iso8859_1 + 1 }

/-- Increment `++n_other`. -/
def State.inc_other (st : State) : State := { st with n_other := st.n_other + 1 }

/-- Increment `++n_fixed`. -/
def State.inc_fixed (st : State) : State := { st with n_fixed := st.n_fixed + 1 }

/-- Store an error number in `errno`. -/
def State.set_errno (st : State) (e : Errno) : State := { st with errno := some e }

/-- Replace the file system. -/
def State.set_fs (st : State) (fs : FS) : State := { st with fs := fs }

/-- Source function `print_qstr`: the bytes it writes. -/
def print_qstr : List Nat → List Nat
  | [] => []
  | b :: bs =>
    if b = 0 then []
    else
      (if b = 40 ∨ b = 41 ∨ b = 34 ∨ b = 39 then [92, b]
       else if b = 32 then [92, 32]
       else if b = 9 then [92, 116]
       else if b = 10 then [92, 110]
       else if b = 13 then [92, 114]
       else if b > 32 ∧ b ≤ 126 then [b]
       else [92, 48 + b / 64 % 8, 48 + b / 8 % 8, 48 + b % 8]) ++ print_qstr bs

/-- The recurring `if (qp_flag) print_qstr(p, logfile); else fputs(p, logfile);`. -/
def put_name (cfg : Config) (p : List Nat) : List Nat :=
  if cfg.qp_flag ≠ 0 then print_qstr p else cstr p

/-! ## Renaming -/

/-- The path built by `strcpy(p, dir); strcat(p, "/"); strcat(p, name);`. -/
def join_path (dir name : List Nat) : List Nat :=
  cstr dir ++ [47] ++ cstr name

/-- Source function `rename_in_dir`: result and state after the call. -/
def rename_in_dir (cfg : Config) (dir old new : List Nat) (st : State) : Int × State :=
  let oldp := join_path dir old
  let newp := join_path dir new
  match stat st.fs newp with
  | .ok _ => (-1, (st.call (.stat newp)).set_errno .EEXIST)
  | .error e =>
    let st1 := (st.call (.stat newp)).set_errno e
    if cfg.nowrite = 0 then
      match sys_rename st1.fs oldp newp with
      | .ok fs2 => (0, (st1.call (.rename oldp newp)).set_fs fs2)
      | .error e2 => (-1, (st1.call (.rename oldp newp)).set_errno e2)
    else (0, st1)

/-! ## The traversal callback -/

/-- The part of `walker` from the label `Rename` on. -/
def walker_rename (cfg : Config) (path rest last np : List Nat) (isof : Int) (st : State) :
    Int × State :=
  let st1 := st.inc_nm
  let tag : List Nat :=
    if isof ≠ 0 then [73, 83, 79, 56, 56, 53, 57, 45, 49] else [79, 116, 104, 101, 114]
  let note : List Nat := if cfg.verbose > 1 then [32, 91] ++ tag ++ [93] else []
  if cfg.fix_flag ≠ 0 then
    let r := rename_in_dir cfg rest last np (st1.call (.rename_in_dir rest last np))
    if r.1 < 0 then
      (cfg.errexit_flag, r.2.diag (.rename_failed rest last np r.2.errno))
    else
      let st2 := r.2.inc_fixed
      if cfg.verbose ≠ 0 then
        (0, st2.log (put_name cfg rest ++ [47] ++ put_name cfg last ++ [32, 45, 62, 32]
          ++ cstr np ++ note ++ [10]))
      else (0, st2)
  else
    (0, st1.log (put_name cfg path ++ note ++ [10]))

/-- The counting of the entry kind at the start of `walker`; `none` is the
early `return 0` for the other kinds. -/
def count_kind (flags : FtwFlag) (st : State) : Option State :=
  match flags with
  | .FTW_F => some st.inc_nf
  | .FTW_D => some st.inc_nd
  | .FTW_DNR => some st.inc_nd
  | .FTW_DP => some st.inc_nd
  | .FTW_SL => some st.inc_ns
  | _ => none

/-- Log line `path [tag]` written when `verbose` exceeds `level`. -/
def log_tag (cfg : Config) (level : Int) (path tag : List Nat) (st : State) : State :=
  if cfg.verbose > level then st.log (put_name cfg path ++ tag) else st

/-- Source function `walker`, after the entry kind has been counted; `rest` and
`last` are the directory part and the base name of `path`. -/
def walker_name (cfg : Config) (iconv : List Nat → Nat → IconvResult)
    (path rest last : List Nat) (st : State) : Int × State :=
  let t_last := if cfg.fix_ws_flag ≠ 0 then fix_whitespace cfg.fix_ws_flag last else last
  let f_rename : Bool := cfg.fix_ws_flag ≠ 0 ∧ strcmp t_last last ≠ 0
  let st0 := if cfg.fix_ws_flag ≠ 0 then st.call (.fix_whitespace last) else st
  if cfg.fix_ws_flag ≠ 0 ∧ t_last.headD 0 = 0 then
    (cfg.errexit_flag, log_tag cfg 1 path [32, 91, 69, 109, 112, 116, 121, 93, 10] st0)
  else if is_ascii t_last ≠ 0 then
    let st1 := log_tag cfg 2 path [32, 91, 65, 83, 67, 73, 73, 93, 10] st0.inc_ascii
    if f_rename = false then (0, st1)
    else walker_rename cfg path rest last t_last 0 st1
  else if is_utf_8 t_last ≠ 0 then
    let st1 := log_tag cfg 2 path [32, 91, 85, 84, 70, 45, 56, 93, 10] st0.inc_utf_8
    if f_rename = false then (0, st1)
    else walker_rename cfg path rest last t_last 0 st1
  else if is_iso8859_1 t_last ≠ 0 then
    let st1 := st0.inc_iso8859_1.call (.conv t_last)
    match conv iconv t_last with
    | none => (cfg.errexit_flag, st1.diag (.unable_to_convert path t_last))
    | some np => walker_rename cfg path rest last np (is_iso8859_1 t_last) st1
  else
    let f_last := fix_invalid t_last
    let st1 := st0.call (.fix_invalid t_last)
    if strcmp f_last t_last = 0 then
      (cfg.errexit_flag,
        log_tag cfg 1 path [32, 91, 85, 110, 102, 105, 120, 97, 98, 108, 101, 93, 10] st1)
    else
      let st2 := st1.inc_other.call (.conv f_last)
      match conv iconv f_last with
      | none => (cfg.errexit_flag, st2.diag (.unable_to_convert path f_last))
      | some np => walker_rename cfg path rest last np 0 st2

/-- The directory part computed at the start of `walker`: the bytes before the
last `/` of the path, or `.` when the path holds no `/`. -/
def path_rest (p : List Nat) : List Nat :=
  match strrchr p 47 with
  | some i => p.take i
  | none => [46]

/-- The base name computed at the start of `walker`: the bytes after the last
`/` of the path, or the whole path when it holds no `/`. -/
def path_last (p : List Nat) : List Nat :=
  match strrchr p 47 with
  | some i => p.drop (i + 1)
  | none => p

/-- Source function `walker`: the value returned to `nftw` and the state after
the call. -/
def walker (cfg : Config) (iconv : List Nat → Nat → IconvResult)
    (path : List Nat) (flags : FtwFlag) (st : State) : Int × State :=
  match count_kind flags st with
  | none => (0, st)
  | some st1 =>
    walker_name cfg iconv (cstr path) (path_rest (cstr path)) (path_last (cstr path)) st1

/-- The initial state: every counter zero, nothing written, over a given file
system. -/
def State.init (fs : FS) : State :=
  { nf := 0, nd := 0, ns := 0, nm := 0, n_ascii := 0, n_iso8859_1 := 0, n_utf_8 := 0,
    n_other := 0, n_fixed := 0, fs := fs, errno := none, logfile := [], stderr := [],
    calls := [] }

/-- The four classification counters: ASCII, UTF-8, ISO8859-1, Other. -/
def State.classes (st : State) : Nat × Nat × Nat × Nat :=
  (st.n_ascii, st.n_utf_8, st.n_iso8859_1, st.n_other)

/-- All options off: report only, no whitespace repair. -/
def Config.plain : Config :=
  { verbose := 0, nowrite := 0, fix_flag := 0, qp_flag := 0, errexit_flag := 0,
    fix_ws_flag := 0 }

/-- A directory `d` holding a file `a` and a symbolic link `b` whose target
`d/x` does not exist. -/
def dangling_fs : FS :=
  [([100], .dir), ([100, 47, 97], .file), ([100, 47, 98], .symlink [100, 47, 120])]

/-! ## Vocabulary of the properties -/

/-- Exactly one of the four classification counters has gone up by one between
two states, the other three being unchanged. -/
def OneClassCounted (st st2 : State) : Prop :=
  st2.classes = (st.n_ascii + 1, st.n_utf_8, st.n_iso8859_1, st.n_other) ∨
  st2.classes = (st.n_ascii, st.n_utf_8 + 1, st.n_iso8859_1, st.n_other) ∨
  st2.classes = (st.n_ascii, st.n_utf_8, st.n_iso8859_1 + 1, st.n_other) ∨
  st2.classes = (st.n_ascii, st.n_utf_8, st.n_iso8859_1, st.n_other + 1)

instance (st st2 : State) : Decidable (OneClassCounted st st2) := by
  unfold OneClassCounted; infer_instance

/-- The entry kinds that `walker` processes: regular file, directory (also
unreadable, also visited after its contents) and symbolic link. -/
def FtwFlag.counted (flags : FtwFlag) : Bool :=
  flags = .FTW_F ∨ flags = .FTW_D ∨ flags = .FTW_DNR ∨ flags = .FTW_DP ∨ flags = .FTW_SL

/-- The name that `walker` classifies: the base name, after `fix_whitespace`
when whitespace repair is on. -/
def tested_name (cfg : Config) (path : List Nat) : List Nat :=
  if cfg.fix_ws_flag ≠ 0 then fix_whitespace cfg.fix_ws_flag (path_last (cstr path))
  else path_last (cstr path)

/-- The two cases in which `walker` returns before any classification counter
is touched: the name is empty after whitespace repair, or it is rejected by the
three classifiers and `fix_invalid` leaves it as it is. -/
def Uncounted (cfg : Config) (path : List Nat) : Prop :=
  (cfg.fix_ws_flag ≠ 0 ∧ tested_name cfg path = []) ∨
  (is_ascii (tested_name cfg path) = 0 ∧ is_utf_8 (tested_name cfg path) = 0 ∧
    is_iso8859_1 (tested_name cfg path) = 0 ∧
    fix_invalid (tested_name cfg path) = tested_name cfg path)

/-- A continuation byte, `10xxxxxx`. -/
def isCont (b : Nat) : Bool := 0x80 ≤ b ∧ b ≤ 0xBF

/-- One unit of the grammar accepted by `is_utf_8`: a printable ASCII byte, or
a lead byte followed by its continuation bytes. -/
def utf8Unit : List Nat → Bool
  | [a] => 0x20 ≤ a ∧ a ≤ 0x7E
  | [a, c1] => 0xC2 ≤ a ∧ a ≤ 0xDF ∧ isCont c1
  | [a, c1, c2] => 0xE0 ≤ a ∧ a ≤ 0xEF ∧ isCont c1 ∧ isCont c2
  | [a, c1, c2, c3] => 0xF0 ≤ a ∧ a ≤ 0xF4 ∧ isCont c1 ∧ isCont c2 ∧ isCont c3
  | _ => false

/-- A lead byte `a` followed by fewer continuation bytes `cs` than it asks for. -/
def Unfinished (a : Nat) (cs : List Nat) : Prop :=
  (∀ c ∈ cs, isCont c = true) ∧
  ((0xC2 ≤ a ∧ a ≤ 0xDF ∧ cs.length < 1) ∨ (0xE0 ≤ a ∧ a ≤ 0xEF ∧ cs.length < 2) ∨
    (0xF0 ≤ a ∧ a ≤ 0xF4 ∧ cs.length < 3))

/-- The per-byte map of the repair pass, as the specification words it: the
image of one input byte, empty when the byte is dropped. -/
def fixByte (b : Nat) : List Nat :=
  if b = 0x8E then [0xAE]
  else if b = 0x90 then [0x27]
  else if b = 0x09 ∨ b = 0x0D ∨ b = 0x0A then [b]
  else if 0x01 ≤ b ∧ b ≤ 0x1F then []
  else if 0x7F ≤ b ∧ b ≤ 0x9F then [0x3F]
  else [b]

/-- Replacement of one byte at severity 2 and above: a whitespace-class byte
becomes an ordinary space. -/
def blank (fix_ws_flag : Int) (b : Nat) : Nat :=
  if is_whitespace fix_ws_flag b then 0x20 else b

/-- A byte string that is empty or begins and ends with a byte outside the
whitespace class. -/
def Trimmed (fix_ws_flag : Int) (t : List Nat) : Prop :=
  (∀ b, t.head? = some b → is_whitespace fix_ws_flag b = false) ∧
  (∀ b, t.getLast? = some b → is_whitespace fix_ws_flag b = false)

instance (cfg : Config) (path : List Nat) : Decidable (Uncounted cfg path) := by
  unfold Uncounted; infer_instance

/-- The Latin-1 to UTF-8 map, byte by byte: a byte below `0x80` is kept, a
byte `b` from `0x80` on becomes `0xC0 | (b >> 6)`, `0x80 | (b & 0x3F)`. -/
def latin1_to_utf8 : List Nat → List Nat
  | [] => []
  | b :: bs =>
    if b < 0x80 then b :: latin1_to_utf8 bs
    else (0xC0 ||| (b >>> 6)) :: (0x80 ||| (b &&& 0x3F)) :: latin1_to_utf8 bs

/-- Conversion loop of a descriptor opened with the source charset US-ASCII
(option `-SASCII`): a byte below `0x80` is copied, a byte from `0x80` on is an
invalid input sequence and stops the call with the error value. -/
def iconv_ascii_loop : List Nat → Nat → List Nat → IconvResult
  | [], _, acc => ⟨0, acc⟩
  | b :: bs, outleft, acc =>
    if b < 0x80 then
      if outleft < 1 then ⟨2 ^ 64 - 1, acc⟩
      else iconv_ascii_loop bs (outleft - 1) (acc ++ [b])
    else ⟨2 ^ 64 - 1, acc⟩

/-- Model of `iconv` on a descriptor for US-ASCII to UTF-8. -/
def iconv_ascii (inp : List Nat) (outlen : Nat) : IconvResult :=
  iconv_ascii_loop inp outlen []

/-- The name that `walker` classifies, as a function of the base name: the
name itself, or `fix_whitespace` of it when whitespace repair is on. -/
def repaired (cfg : Config) (last : List Nat) : List Nat :=
  if cfg.fix_ws_flag ≠ 0 then fix_whitespace cfg.fix_ws_flag last else last

/-- The name `np` with which `walker` reaches its label `Rename`, as a function
of the base name `last`; `none` when `walker` returns before that label. -/
def rename_target (cfg : Config) (iconv : List Nat → Nat → IconvResult)
    (last : List Nat) : Option (List Nat) :=
  let t_last := if cfg.fix_ws_flag ≠ 0 then fix_whitespace cfg.fix_ws_flag last else last
  let f_rename : Bool := cfg.fix_ws_flag ≠ 0 ∧ strcmp t_last last ≠ 0
  if cfg.fix_ws_flag ≠ 0 ∧ t_last.headD 0 = 0 then none
  else if is_ascii t_last ≠ 0 then (if f_rename = false then none else some t_last)
  else if is_utf_8 t_last ≠ 0 then (if f_rename = false then none else some t_last)
  else if is_iso8859_1 t_last ≠ 0 then conv iconv t_last
  else if strcmp (fix_invalid t_last) t_last = 0 then none
  else conv iconv (fix_invalid t_last)

/-- Fix mode (option `-F`) with every other option off. -/
def Config.fix : Config :=
  { verbose := 0, nowrite := 0, fix_flag := 1, qp_flag := 0, errexit_flag := 0,
    fix_ws_flag := 0 }

/-- A directory `d` holding one regular file with the given base name. -/
def one_file_fs (name : List Nat) : FS :=
  [([100], .dir), ([100, 47] ++ name, .file)]

/-- The byte stored by the copy loop of `fix_whitespace` for the input byte
`b`. -/
def copy_byte (fix_ws_flag : Int) (b : Nat) : Nat :=
  if fix_ws_flag > 1 ∧ is_whitespace fix_ws_flag b = true then 32 else b

/-! ## The UTF-8 validator -/

set_option maxRecDepth 100000 in
theorem byte_masks : ∀ b < 256,
    ((b &&& 0xFE = 0xFC) ↔ (0xFC ≤ b ∧ b ≤ 0xFD)) ∧
    ((b &&& 0xFC = 0xF8) ↔ (0xF8 ≤ b ∧ b ≤ 0xFB)) ∧
    ((b &&& 0xF8 = 0xF0) ↔ (0xF0 ≤ b ∧ b ≤ 0xF7)) ∧
    ((b &&& 0xF0 = 0xE0) ↔ (0xE0 ≤ b ∧ b ≤ 0xEF)) ∧
    ((b &&& 0xE0 = 0xC0) ↔ (0xC0 ≤ b ∧ b ≤ 0xDF)) ∧
    ((b &&& 0xC0 = 0x80) ↔ (0x80 ≤ b ∧ b ≤ 0xBF)) := by
  decide

theorem loop_state0 (b : Nat) (bs : List Nat) (len : Int) (h0 : 0 < b) (hb : b < 256) :
    is_utf_8_loop (b :: bs) 0 len =
      if 0x20 ≤ b ∧ b ≤ 0x7E then is_utf_8_loop bs 0 len
      else if 0xC2 ≤ b ∧ b ≤ 0xDF then is_utf_8_loop bs 1 1
      else if 0xE0 ≤ b ∧ b ≤ 0xEF then is_utf_8_loop bs 1 2
      else if 0xF0 ≤ b ∧ b ≤ 0xF4 then is_utf_8_loop bs 1 3
      else 0 := by
  obtain ⟨h1, h2, h3, h4, h5, -⟩ := byte_masks b hb
  simp only [is_utf_8_loop, h1, h2, h3, h4, h5]
  split_ifs <;> first | rfl | omega

theorem loop_state1 (b : Nat) (bs : List Nat) (len : Int) (h0 : 0 < b) (hb : b < 256) :
    is_utf_8_loop (b :: bs) 1 len =
      if 0x80 ≤ b ∧ b ≤ 0xBF then is_utf_8_loop bs (if len - 1 = 0 then 0 else 1) (len - 1)
      else 0 := by
  obtain ⟨-, -, -, -, -, h6⟩ := byte_masks b hb
  simp only [is_utf_8_loop, h6]
  split_ifs <;> first | rfl | omega


theorem nulFree_cons {b : Nat} {bs : List Nat} (h : NulFree (b :: bs)) :
    (0 < b ∧ b < 256) ∧ NulFree bs :=
  ⟨h b (List.mem_cons_self _ _), fun c hc => h c (List.mem_cons_of_mem _ hc)⟩

theorem nulFree_append {p q : List Nat} (h : NulFree (p ++ q)) : NulFree p ∧ NulFree q :=
  ⟨fun c hc => h c (List.mem_append_left _ hc), fun c hc => h c (List.mem_append_right _ hc)⟩

theorem loop_state0_len (s : List Nat) : ∀ len len2 : Int,
    is_utf_8_loop s 0 len = is_utf_8_loop s 0 len2 := by
  induction s with
  | nil => intro len len2; simp [is_utf_8_loop]
  | cons b bs ih =>
    intro len len2
    simp only [is_utf_8_loop]
    split_ifs <;> first | rfl | exact ih _ _

/-- In state 1 with `n + 1` bytes outstanding the loop accepts exactly when the
next `n + 1` bytes are continuation bytes and the rest is accepted from state 0. -/
theorem loop_cont (n : Nat) : ∀ s : List Nat, NulFree s →
    is_utf_8_loop s 1 ((n : Int) + 1) =
      if n + 1 ≤ s.length ∧ ∀ c ∈ s.take (n + 1), isCont c = true
      then is_utf_8_loop (s.drop (n + 1)) 0 0 else 0 := by
  induction n with
  | zero =>
    intro s hs
    cases s with
    | nil => simp [is_utf_8_loop]
    | cons b bs =>
      obtain ⟨⟨h0, hb⟩, -⟩ := nulFree_cons hs
      rw [loop_state1 b bs _ h0 hb]
      simp [isCont]
  | succ n ih =>
    intro s hs
    cases s with
    | nil => simp [is_utf_8_loop]
    | cons b bs =>
      obtain ⟨⟨h0, hb⟩, hbs⟩ := nulFree_cons hs
      rw [loop_state1 b bs _ h0 hb]
      have e1 : ((n + 1 : Nat) : Int) + 1 - 1 = (n : Int) + 1 := by push_cast; ring
      have e2 : ¬ ((n : Int) + 1 = 0) := by omega
      rw [e1, if_neg e2, ih bs hbs]
      by_cases hc : 0x80 ≤ b ∧ b ≤ 0xBF
      · simp [isCont, hc]
      · rw [if_neg hc, if_neg]
        rintro ⟨-, h⟩
        have := h b (by simp)
        simp [isCont] at this
        omega


theorem accept_cont (k : Nat) (bs : List Nat) (hbs : NulFree bs)
    (h : is_utf_8_loop bs 1 ((k : Int) + 1) = 1) :
    ∃ cs r, bs = cs ++ r ∧ cs.length = k + 1 ∧ (∀ c ∈ cs, isCont c = true) ∧
      is_utf_8_loop r 0 0 = 1 := by
  rw [loop_cont k bs hbs] at h
  split_ifs at h with hc
  · exact ⟨bs.take (k + 1), bs.drop (k + 1), (List.take_append_drop _ _).symm,
      by simp [hc.1], hc.2, h⟩
  · simp at h

theorem units_of_accept : ∀ n : Nat, ∀ s : List Nat, s.length ≤ n → NulFree s →
    is_utf_8_loop s 0 0 = 1 →
    ∃ us : List (List Nat), (∀ u ∈ us, utf8Unit u = true) ∧ s = us.flatten := by
  intro n
  induction n with
  | zero =>
    intro s hl _ _
    have : s = [] := List.length_eq_zero.mp (by omega)
    exact ⟨[], by simp, by simp [this]⟩
  | succ n ih =>
    intro s hl hs hacc
    cases s with
    | nil => exact ⟨[], by simp, by simp⟩
    | cons b bs =>
      obtain ⟨⟨h0, hb⟩, hbs⟩ := nulFree_cons hs
      have hl2 : bs.length ≤ n := by simpa using hl
      rw [loop_state0 b bs 0 h0 hb] at hacc
      split_ifs at hacc with h1 h2 h3 h4
      · obtain ⟨us, hu, rfl⟩ := ih bs hl2 hbs hacc
        refine ⟨[b] :: us, ?_, by simp⟩
        intro u hu2
        rcases List.mem_cons.mp hu2 with rfl | hu2
        · simp [utf8Unit, h1]
        · exact hu u hu2
      · obtain ⟨cs, r, rfl, hlen, hc, hr⟩ := accept_cont 0 bs hbs (by simpa using hacc)
        obtain ⟨us, hu, rfl⟩ := ih r (by simp at hl2; omega) (nulFree_append hbs).2 hr
        refine ⟨(b :: cs) :: us, ?_, by simp⟩
        intro u hu2
        rcases List.mem_cons.mp hu2 with rfl | hu2
        · rcases cs with _ | ⟨c1, _ | ⟨c2, t⟩⟩ <;> simp at hlen
          simp [utf8Unit, h2]
          exact hc c1 (by simp)
        · exact hu u hu2
      · obtain ⟨cs, r, rfl, hlen, hc, hr⟩ := accept_cont 1 bs hbs (by simpa using hacc)
        obtain ⟨us, hu, rfl⟩ := ih r (by simp at hl2; omega) (nulFree_append hbs).2 hr
        refine ⟨(b :: cs) :: us, ?_, by simp⟩
        intro u hu2
        rcases List.mem_cons.mp hu2 with rfl | hu2
        · rcases cs with _ | ⟨c1, _ | ⟨c2, _ | ⟨c3, t⟩⟩⟩ <;> simp at hlen
          simp [utf8Unit, h3]
          exact ⟨hc c1 (by simp), hc c2 (by simp)⟩
        · exact hu u hu2
      · obtain ⟨cs, r, rfl, hlen, hc, hr⟩ := accept_cont 2 bs hbs (by simpa using hacc)
        obtain ⟨us, hu, rfl⟩ := ih r (by simp at hl2; omega) (nulFree_append hbs).2 hr
        refine ⟨(b :: cs) :: us, ?_, by simp⟩
        intro u hu2
        rcases List.mem_cons.mp hu2 with rfl | hu2
        · rcases cs with _ | ⟨c1, _ | ⟨c2, _ | ⟨c3, _ | ⟨c4, t⟩⟩⟩⟩ <;> simp at hlen
          simp [utf8Unit, h4]
          exact ⟨hc c1 (by simp), hc c2 (by simp), hc c3 (by simp)⟩
        · exact hu u hu2
      · simp at hacc

theorem accept_of_units (us : List (List Nat)) (hu : ∀ u ∈ us, utf8Unit u = true) :
    is_utf_8_loop us.flatten 0 0 = 1 := by
  induction us with
  | nil => simp [is_utf_8_loop]
  | cons u us ih =>
    have hu1 := hu u (by simp)
    have ih2 := ih (fun v hv => hu v (by simp [hv]))
    rcases u with _ | ⟨a, _ | ⟨c1, _ | ⟨c2, _ | ⟨c3, _ | ⟨c4, t⟩⟩⟩⟩⟩ <;>
      simp [utf8Unit, isCont] at hu1
    · simp only [List.flatten_cons, List.cons_append, List.nil_append]
      rw [loop_state0 a _ _ (by omega) (by omega), if_pos hu1]
      exact ih2
    · simp only [List.flatten_cons, List.cons_append, List.nil_append]
      rw [loop_state0 a _ _ (by omega) (by omega), if_neg (by omega), if_pos (by omega),
        loop_state1 c1 _ _ (by omega) (by omega), if_pos (by omega)]
      simpa using ih2
    · simp only [List.flatten_cons, List.cons_append, List.nil_append]
      rw [loop_state0 a _ _ (by omega) (by omega), if_neg (by omega), if_neg (by omega),
        if_pos (by omega),
        loop_state1 c1 _ _ (by omega) (by omega), if_pos (by omega)]
      norm_num
      rw [loop_state1 c2 _ _ (by omega) (by omega), if_pos (by omega)]
      simpa using ih2
    · simp only [List.flatten_cons, List.cons_append, List.nil_append]
      rw [loop_state0 a _ _ (by omega) (by omega), if_neg (by omega), if_neg (by omega),
        if_neg (by omega), if_pos (by omega),
        loop_state1 c1 _ _ (by omega) (by omega), if_pos (by omega)]
      norm_num
      rw [loop_state1 c2 _ _ (by omega) (by omega), if_pos (by omega)]
      norm_num
      rw [loop_state1 c3 _ _ (by omega) (by omega), if_pos (by omega)]
      simpa using ih2


theorem loop_append (p : List Nat) : ∀ (rest : List Nat) (state len : Int), NulFree p →
    (state = 0 ∨ (state = 1 ∧ 1 ≤ len)) →
    is_utf_8_loop (p ++ rest) state len = 0 ∨
    ∃ state2 len2, (state2 = 0 ∨ (state2 = 1 ∧ 1 ≤ len2)) ∧
      is_utf_8_loop (p ++ rest) state len = is_utf_8_loop rest state2 len2 := by
  induction p with
  | nil => intro rest state len _ hinv; exact Or.inr ⟨state, len, hinv, rfl⟩
  | cons b bs ih =>
    intro rest state len hp hinv
    obtain ⟨⟨h0, hb⟩, hbs⟩ := nulFree_cons hp
    rw [List.cons_append]
    rcases hinv with rfl | ⟨rfl, hlen⟩
    · rw [loop_state0 b _ _ h0 hb]
      split_ifs
      · exact ih rest 0 len hbs (Or.inl rfl)
      · exact ih rest 1 1 hbs (Or.inr ⟨rfl, le_refl _⟩)
      · exact ih rest 1 2 hbs (Or.inr ⟨rfl, by norm_num⟩)
      · exact ih rest 1 3 hbs (Or.inr ⟨rfl, by norm_num⟩)
      · exact Or.inl rfl
    · rw [loop_state1 b _ _ h0 hb]
      split_ifs with h1 h2
      · exact ih rest 0 _ hbs (Or.inl rfl)
      · exact ih rest 1 _ hbs (Or.inr ⟨rfl, by omega⟩)
      · exact Or.inl rfl

theorem nulFree_of_cont {cs : List Nat} (h : ∀ c ∈ cs, isCont c = true) : NulFree cs := by
  intro c hc
  have := h c hc
  simp [isCont] at this
  omega

theorem loop_unfinished (a : Nat) (cs : List Nat) (state len : Int)
    (hinv : state = 0 ∨ (state = 1 ∧ 1 ≤ len)) (hu : Unfinished a cs) :
    is_utf_8_loop (a :: cs) state len = 0 := by
  obtain ⟨hc, hu⟩ := hu
  have hcs := nulFree_of_cont hc
  rcases hinv with rfl | ⟨rfl, -⟩
  · rw [loop_state0 a _ _ (by omega) (by omega)]
    rcases hu with ⟨h1, h2, h3⟩ | ⟨h1, h2, h3⟩ | ⟨h1, h2, h3⟩
    · rw [if_neg (by omega), if_pos (by omega)]
      have := loop_cont 0 cs hcs
      simp only [Nat.cast_zero, zero_add] at this
      rw [this, if_neg (by omega)]
    · rw [if_neg (by omega), if_neg (by omega), if_pos (by omega)]
      have := loop_cont 1 cs hcs
      norm_num at this
      rw [this, if_neg (by omega)]
    · rw [if_neg (by omega), if_neg (by omega), if_neg (by omega), if_pos (by omega)]
      have := loop_cont 2 cs hcs
      norm_num at this
      rw [this, if_neg (by omega)]
  · rw [loop_state1 a _ _ (by omega) (by omega), if_neg (by omega)]

theorem loop_illegal (s : List Nat) : ∀ (state len : Int), NulFree s →
    (∃ b ∈ s, b = 0xC0 ∨ b = 0xC1 ∨ b ≥ 0xF5) → (state = 0 ∨ (state = 1 ∧ 1 ≤ len)) →
    is_utf_8_loop s state len = 0 := by
  intro state len hs ⟨b, hb, hill⟩ hinv
  obtain ⟨p, q, rfl⟩ := List.append_of_mem hb
  obtain ⟨hp, hq⟩ := nulFree_append hs
  have hb0 := (nulFree_cons hq).1
  have key : ∀ st ln, is_utf_8_loop (b :: q) st ln = 0 := by
    intro st ln
    simp only [is_utf_8_loop]
    rw [if_neg (by omega), if_pos hill]
  rcases loop_append p (b :: q) state len hp hinv with h | ⟨st, ln, -, h⟩
  · exact h
  · rw [h, key]

/-- Claim C1: for a NUL-free byte string, `is_utf_8` returns 1 exactly when the
string is a concatenation of units (a byte in 0x20-0x7E, or a lead byte in
0xC2-0xDF, 0xE0-0xEF, 0xF0-0xF4 followed by one, two, three bytes in 0x80-0xBF);
a string holding 0xC0, 0xC1 or a byte from 0xF5 on is rejected, a string that
ends inside an unfinished multi-byte sequence is rejected, and the empty string
is accepted. -/
theorem is_utf_8_iff_units (s : List Nat) (hs : NulFree s) :
    (is_utf_8 s = 1 ↔
      ∃ us : List (List Nat), (∀ u ∈ us, utf8Unit u = true) ∧ s = us.flatten) ∧
    ((∃ b ∈ s, b = 0xC0 ∨ b = 0xC1 ∨ b ≥ 0xF5) → is_utf_8 s = 0) ∧
    (∀ p a cs, s = p ++ a :: cs → Unfinished a cs → is_utf_8 s = 0) ∧
    is_utf_8 [] = 1 := by
  refine ⟨⟨fun h => units_of_accept s.length s le_rfl hs h, ?_⟩, ?_, ?_, by simp [is_utf_8, is_utf_8_loop]⟩
  · rintro ⟨us, hu, rfl⟩
    exact accept_of_units us hu
  · intro h
    exact loop_illegal s 0 0 hs h (Or.inl rfl)
  · rintro p a cs rfl hu
    rcases loop_append p (a :: cs) 0 0 (nulFree_append hs).1 (Or.inl rfl) with h | ⟨st, ln, hinv, h⟩
    · exact h
    · unfold is_utf_8
      rw [h, loop_unfinished a cs st ln hinv hu]

theorem is_utf_8_iff_units_witness :
    NulFree [0x63, 0xC3, 0xA9] ∧
    ((is_utf_8 [0x63, 0xC3, 0xA9] = 1 ↔
      ∃ us : List (List Nat), (∀ u ∈ us, utf8Unit u = true) ∧ [0x63, 0xC3, 0xA9] = us.flatten) ∧
    ((∃ b ∈ [0x63, 0xC3, 0xA9], b = 0xC0 ∨ b = 0xC1 ∨ b ≥ 0xF5) → is_utf_8 [0x63, 0xC3, 0xA9] = 0) ∧
    (∀ p a cs, [0x63, 0xC3, 0xA9] = p ++ a :: cs → Unfinished a cs → is_utf_8 [0x63, 0xC3, 0xA9] = 0) ∧
    is_utf_8 [] = 1) :=
  ⟨by decide, is_utf_8_iff_units [0x63, 0xC3, 0xA9] (by decide)⟩


theorem strlen_nulFree (s : List Nat) (hs : NulFree s) : strlen s = s.length := by
  induction s with
  | nil => rfl
  | cons b bs ih =>
    obtain ⟨⟨h0, -⟩, hbs⟩ := nulFree_cons hs
    simp [strlen, ih hbs, Nat.pos_iff_ne_zero.mp h0]

theorem cstr_nulFree (s : List Nat) (hs : NulFree s) : cstr s = s := by
  induction s with
  | nil => rfl
  | cons b bs ih =>
    obtain ⟨⟨h0, -⟩, hbs⟩ := nulFree_cons hs
    simp [cstr, ih hbs, Nat.pos_iff_ne_zero.mp h0]

theorem is_ascii_loop_iff (s : List Nat) (hs : NulFree s) : ∀ k : Nat, k ≤ s.length →
    (is_ascii_loop s k = 1 ↔ ∀ b ∈ s.take k, 0x20 ≤ b ∧ b ≤ 0x7E) := by
  intro k
  induction k with
  | zero => intro _; simp [is_ascii_loop]
  | succ k ih =>
    intro hk
    have hlt : k < s.length := hk
    have hmem : s[k] ∈ s := List.getElem_mem hlt
    have h0 : s[k] ≠ 0 := Nat.pos_iff_ne_zero.mp (hs _ hmem).1
    have hget : s.getD k 0 = s[k] := by simp [List.getD_eq_getElem?_getD, hlt]
    have htake : s.take (k + 1) = s.take k ++ [s[k]] := by
      rw [List.take_succ]; simp [List.getElem?_eq_getElem hlt]
    simp only [is_ascii_loop, hget, if_neg h0, htake, List.mem_append, List.mem_singleton]
    by_cases hr : s[k] < 32 ∨ s[k] > 126
    · rw [if_pos hr]
      constructor
      · intro h; simp at h
      · intro h
        have := h s[k] (Or.inr rfl)
        omega
    · rw [if_neg hr, ih (by omega)]
      constructor
      · rintro h b (hb | rfl)
        · exact h b hb
        · omega
      · intro h b hb
        exact h b (Or.inl hb)

/-- Claim C3: for a NUL-free byte string, the empty one included, `is_ascii`
returns 1 exactly when every byte lies in 0x20-0x7E. -/
theorem is_ascii_iff (s : List Nat) (hs : NulFree s) :
    is_ascii s = 1 ↔ ∀ b ∈ s, 0x20 ≤ b ∧ b ≤ 0x7E := by
  unfold is_ascii
  rw [strlen_nulFree s hs, is_ascii_loop_iff s hs s.length le_rfl, List.take_length]

theorem is_ascii_iff_witness :
    NulFree [0x61, 0x20, 0x7E] ∧
    (is_ascii [0x61, 0x20, 0x7E] = 1 ↔ ∀ b ∈ [0x61, 0x20, 0x7E], 0x20 ≤ b ∧ b ≤ 0x7E) :=
  ⟨by decide, is_ascii_iff [0x61, 0x20, 0x7E] (by decide)⟩

/-- Claim C4: for a NUL-free byte string, `is_iso8859_1` returns 1 exactly when
no byte is below 0x20 and none lies in 0x7F-0xA0; equivalently, when every byte
is in 0x20-0x7E or in 0xA1-0xFF. -/
theorem is_iso8859_1_iff (s : List Nat) (hs : NulFree s) :
    (is_iso8859_1 s = 1 ↔ ∀ b ∈ s, ¬ b < 0x20 ∧ ¬ (0x7F ≤ b ∧ b ≤ 0xA0)) ∧
    (is_iso8859_1 s = 1 ↔ ∀ b ∈ s, (0x20 ≤ b ∧ b ≤ 0x7E) ∨ (0xA1 ≤ b ∧ b ≤ 0xFF)) := by
  induction s with
  | nil => simp [is_iso8859_1]
  | cons b bs ih =>
    obtain ⟨⟨h0, hb⟩, hbs⟩ := nulFree_cons hs
    obtain ⟨ih1, ih2⟩ := ih hbs
    simp only [is_iso8859_1, if_neg (Nat.pos_iff_ne_zero.mp h0), List.forall_mem_cons]
    by_cases hr : b < 32 ∨ (b ≥ 0x7F ∧ b ≤ 0xA0)
    · rw [if_pos hr]
      refine ⟨⟨fun h => by simp at h, fun h => by omega⟩, ⟨fun h => by simp at h, fun h => by omega⟩⟩
    · rw [if_neg hr]
      refine ⟨⟨fun h => ⟨by omega, ih1.mp h⟩, fun h => ih1.mpr h.2⟩,
        ⟨fun h => ⟨by omega, ih2.mp h⟩, fun h => ih2.mpr h.2⟩⟩

theorem is_iso8859_1_iff_witness :
    NulFree [0x63, 0xE9, 0xFF] ∧
    ((is_iso8859_1 [0x63, 0xE9, 0xFF] = 1 ↔
      ∀ b ∈ [0x63, 0xE9, 0xFF], ¬ b < 0x20 ∧ ¬ (0x7F ≤ b ∧ b ≤ 0xA0)) ∧
    (is_iso8859_1 [0x63, 0xE9, 0xFF] = 1 ↔
      ∀ b ∈ [0x63, 0xE9, 0xFF], (0x20 ≤ b ∧ b ≤ 0x7E) ∨ (0xA1 ≤ b ∧ b ≤ 0xFF))) :=
  ⟨by decide, is_iso8859_1_iff [0x63, 0xE9, 0xFF] (by decide)⟩

/-! ## The repair pass `fix_invalid` -/

theorem fix_invalid_cons (b : Nat) (bs : List Nat) (h0 : 0 < b) :
    fix_invalid (b :: bs) = fixByte b ++ fix_invalid bs := by
  simp only [fix_invalid, fixByte, if_neg (Nat.pos_iff_ne_zero.mp h0)]
  split_ifs <;> first | rfl | omega

theorem fixByte_length (b : Nat) : (fixByte b).length ≤ 1 := by
  unfold fixByte
  split_ifs <;> simp

theorem fixByte_nulFree (b : Nat) (h0 : 0 < b) (hb : b < 256) : NulFree (fixByte b) := by
  unfold fixByte
  intro c hc
  split_ifs at hc <;> simp at hc <;> omega

theorem fix_invalid_fixByte (b : Nat) (h0 : 0 < b) : fix_invalid (fixByte b) = fixByte b := by
  unfold fixByte
  split_ifs <;> first
    | rfl
    | (simp only [fix_invalid]; split_ifs <;> first | rfl | omega)

theorem fix_invalid_append (p q : List Nat) (hp : NulFree p) :
    fix_invalid (p ++ q) = fix_invalid p ++ fix_invalid q := by
  induction p with
  | nil => simp [fix_invalid]
  | cons b bs ih =>
    obtain ⟨⟨h0, -⟩, hbs⟩ := nulFree_cons hp
    rw [List.cons_append, fix_invalid_cons _ _ h0, fix_invalid_cons _ _ h0, ih hbs,
      List.append_assoc]

/-- Claim C5: for a NUL-free byte string, `fix_invalid` yields the images of
its bytes, in order, under the per-byte map (0x8E to 0xAE, 0x90 to 0x27, tab,
CR and LF kept, other bytes of 0x01-0x1F dropped, other bytes of 0x7F-0x9F to
0x3F, every other byte kept); each byte yields at most one byte, the output is
never longer than the input, and the name 0x90 becomes the name 0x27. -/
theorem fix_invalid_spec (s : List Nat) (hs : NulFree s) :
    fix_invalid s = (s.map fixByte).flatten ∧
    (∀ b, (fixByte b).length ≤ 1) ∧
    (fix_invalid s).length ≤ s.length ∧
    fix_invalid [0x90] = [0x27] := by
  refine ⟨?_, fixByte_length, ?_, by decide⟩
  · induction s with
    | nil => rfl
    | cons b bs ih =>
      obtain ⟨⟨h0, -⟩, hbs⟩ := nulFree_cons hs
      rw [fix_invalid_cons _ _ h0, ih hbs]
      simp
  · induction s with
    | nil => simp [fix_invalid]
    | cons b bs ih =>
      obtain ⟨⟨h0, -⟩, hbs⟩ := nulFree_cons hs
      rw [fix_invalid_cons _ _ h0]
      have := fixByte_length b
      have := ih hbs
      simp only [List.length_append, List.length_cons]
      omega

theorem fix_invalid_spec_witness :
    NulFree [0x8E, 0x90, 0x09, 0x01, 0x7F, 0xE9] ∧
    (fix_invalid [0x8E, 0x90, 0x09, 0x01, 0x7F, 0xE9] =
        ([0x8E, 0x90, 0x09, 0x01, 0x7F, 0xE9].map fixByte).flatten ∧
      (∀ b, (fixByte b).length ≤ 1) ∧
      (fix_invalid [0x8E, 0x90, 0x09, 0x01, 0x7F, 0xE9]).length
        ≤ [0x8E, 0x90, 0x09, 0x01, 0x7F, 0xE9].length ∧
      fix_invalid [0x90] = [0x27]) :=
  ⟨by decide, fix_invalid_spec [0x8E, 0x90, 0x09, 0x01, 0x7F, 0xE9] (by decide)⟩

/-- Claim C6: `fix_invalid` is idempotent on NUL-free byte strings. -/
theorem fix_invalid_idempotent (s : List Nat) (hs : NulFree s) :
    fix_invalid (fix_invalid s) = fix_invalid s := by
  induction s with
  | nil => rfl
  | cons b bs ih =>
    obtain ⟨⟨h0, hb⟩, hbs⟩ := nulFree_cons hs
    rw [fix_invalid_cons _ _ h0, fix_invalid_append _ _ (fixByte_nulFree b h0 hb),
      fix_invalid_fixByte b h0, ih hbs]

theorem fix_invalid_idempotent_witness :
    NulFree [0x8E, 0x90, 0x09, 0x01, 0x7F, 0xE9] ∧
    fix_invalid (fix_invalid [0x8E, 0x90, 0x09, 0x01, 0x7F, 0xE9]) =
      fix_invalid [0x8E, 0x90, 0x09, 0x01, 0x7F, 0xE9] :=
  ⟨by decide, fix_invalid_idempotent [0x8E, 0x90, 0x09, 0x01, 0x7F, 0xE9] (by decide)⟩

/-! ## The whitespace pass `fix_whitespace` -/

theorem skip_whitespace_eq (flag : Int) (s : List Nat) :
    skip_whitespace flag s = s.dropWhile (is_whitespace flag) := by
  induction s with
  | nil => rfl
  | cons b bs ih =>
    simp only [skip_whitespace, List.dropWhile_cons, ih]

/-- The byte stored by the copy loop. -/
theorem copy_whitespace_eq (flag : Int) (r : List Nat) (hr : NulFree r) :
    copy_whitespace flag r =
      r.map (fun b => if flag > 1 ∧ is_whitespace flag b = true then 32 else b) := by
  induction r with
  | nil => rfl
  | cons b bs ih =>
    obtain ⟨⟨h0, -⟩, hbs⟩ := nulFree_cons hr
    simp only [copy_whitespace, if_neg (Nat.pos_iff_ne_zero.mp h0), ih hbs, List.map_cons]

theorem trim_whitespace_take (flag : Int) (out : List Nat) : ∀ k : Nat, k ≤ out.length →
    out.take (trim_whitespace flag out k) = (out.take k).rdropWhile (is_whitespace flag) := by
  intro k
  induction k with
  | zero => intro _; simp [trim_whitespace]
  | succ k ih =>
    intro hk
    have hlt : k < out.length := hk
    have hget : out.getD k 0 = out[k] := by simp [List.getD_eq_getElem?_getD, hlt]
    have htake : out.take (k + 1) = out.take k ++ [out[k]] := by
      rw [List.take_succ]; simp [List.getElem?_eq_getElem hlt]
    simp only [trim_whitespace, hget]
    by_cases hw : is_whitespace flag out[k] = true
    · rw [if_pos hw, ih (by omega), htake, List.rdropWhile_concat_pos _ _ _ hw]
    · rw [if_neg hw, htake, List.rdropWhile_concat_neg _ _ _ hw]

theorem is_whitespace_space (flag : Int) : is_whitespace flag 32 = true := by
  simp [is_whitespace]

theorem is_whitespace_subst (flag : Int) (b : Nat) :
    is_whitespace flag (if flag > 1 ∧ is_whitespace flag b = true then 32 else b)
      = is_whitespace flag b := by
  split_ifs with h
  · rw [is_whitespace_space, h.2]
  · rfl

theorem rdropWhile_map_of_comp {f : Nat → Nat} {p : Nat → Bool} (h : ∀ b, p (f b) = p b)
    (l : List Nat) : (l.map f).rdropWhile p = (l.rdropWhile p).map f := by
  have hc : p ∘ f = p := funext h
  simp only [List.rdropWhile, ← List.map_reverse, List.dropWhile_map, hc]

/-- What `fix_whitespace` computes: leading and trailing whitespace removed,
and the copy loop's substitution applied to what is left. -/
theorem fix_whitespace_eq (flag : Int) (s : List Nat) (hs : NulFree s) :
    fix_whitespace flag s =
      ((s.dropWhile (is_whitespace flag)).rdropWhile (is_whitespace flag)).map
        (fun b => if flag > 1 ∧ is_whitespace flag b = true then 32 else b) := by
  have hr : NulFree (s.dropWhile (is_whitespace flag)) :=
    fun b hb => hs b ((List.dropWhile_suffix _).subset hb)
  unfold fix_whitespace
  simp only [skip_whitespace_eq, copy_whitespace_eq flag _ hr]
  rw [trim_whitespace_take flag _ _ le_rfl, List.take_length,
    rdropWhile_map_of_comp (is_whitespace_subst flag)]

theorem trimmed_middle (flag : Int) (s : List Nat) :
    Trimmed flag ((s.dropWhile (is_whitespace flag)).rdropWhile (is_whitespace flag)) := by
  constructor
  · intro b hb
    have hpre := List.rdropWhile_prefix (is_whitespace flag) (s.dropWhile (is_whitespace flag))
    have hhead : (s.dropWhile (is_whitespace flag)).head? = some b := by
      obtain ⟨t, ht⟩ := hpre
      rw [← ht]
      cases hM : (s.dropWhile (is_whitespace flag)).rdropWhile (is_whitespace flag) with
      | nil => rw [hM] at hb; simp at hb
      | cons a l => rw [hM] at hb; simpa using hb
    have := List.head?_dropWhile_not (is_whitespace flag) s
    rw [hhead] at this
    exact this
  · intro b hb
    have hne : (s.dropWhile (is_whitespace flag)).rdropWhile (is_whitespace flag) ≠ [] := by
      intro h; rw [h] at hb; simp at hb
    have := List.rdropWhile_last_not (is_whitespace flag) _ hne
    rw [List.getLast?_eq_getLast _ hne] at hb
    simp only [Option.some.injEq] at hb
    rw [hb] at this
    simpa using this

theorem trimmed_map (flag : Int) (t : List Nat) (ht : Trimmed flag t) :
    Trimmed flag (t.map (fun b => if flag > 1 ∧ is_whitespace flag b = true then 32 else b)) := by
  constructor
  · intro b hb
    rw [List.head?_map] at hb
    cases hh : t.head? with
    | none => rw [hh] at hb; simp at hb
    | some a =>
      rw [hh] at hb
      simp only [Option.map_some', Option.some.injEq] at hb
      rw [← hb, is_whitespace_subst]
      exact ht.1 a hh
  · intro b hb
    rw [List.getLast?_map] at hb
    cases hh : t.getLast? with
    | none => rw [hh] at hb; simp at hb
    | some a =>
      rw [hh] at hb
      simp only [Option.map_some', Option.some.injEq] at hb
      rw [← hb, is_whitespace_subst]
      exact ht.2 a hh

theorem trimmed_fix_whitespace (flag : Int) (s : List Nat) (hs : NulFree s) :
    Trimmed flag (fix_whitespace flag s) := by
  rw [fix_whitespace_eq flag s hs]
  exact trimmed_map flag _ (trimmed_middle flag s)

theorem dropWhile_trimmed (flag : Int) (t : List Nat) (ht : Trimmed flag t) :
    t.dropWhile (is_whitespace flag) = t := by
  cases t with
  | nil => rfl
  | cons a l =>
    have := ht.1 a rfl
    simp [List.dropWhile_cons, this]

theorem rdropWhile_trimmed (flag : Int) (t : List Nat) (ht : Trimmed flag t) :
    t.rdropWhile (is_whitespace flag) = t := by
  rw [List.rdropWhile_eq_self_iff]
  intro hl
  have := ht.2 _ (List.getLast?_eq_getLast _ hl)
  simp [this]

theorem nulFree_map_subst (flag : Int) (t : List Nat) (ht : NulFree t) :
    NulFree (t.map (fun b => if flag > 1 ∧ is_whitespace flag b = true then 32 else b)) := by
  intro c hc
  obtain ⟨b, hb, rfl⟩ := List.mem_map.mp hc
  have := ht b hb
  split_ifs <;> omega

theorem nulFree_fix_whitespace (flag : Int) (s : List Nat) (hs : NulFree s) :
    NulFree (fix_whitespace flag s) := by
  rw [fix_whitespace_eq flag s hs]
  apply nulFree_map_subst
  intro b hb
  exact hs b ((List.dropWhile_suffix _).subset ((List.rdropWhile_prefix _ _).subset hb))

/-- Claim C7: at every value of `fix_ws_flag`, held fixed across both calls,
`fix_whitespace` is idempotent on NUL-free byte strings. -/
theorem fix_whitespace_idempotent (fix_ws_flag : Int) (s : List Nat) (hs : NulFree s) :
    fix_whitespace fix_ws_flag (fix_whitespace fix_ws_flag s) = fix_whitespace fix_ws_flag s := by
  have ht := trimmed_fix_whitespace fix_ws_flag s hs
  rw [fix_whitespace_eq fix_ws_flag _ (nulFree_fix_whitespace fix_ws_flag s hs),
    dropWhile_trimmed _ _ ht, rdropWhile_trimmed _ _ ht]
  rw [fix_whitespace_eq fix_ws_flag s hs, List.map_map]
  apply List.map_congr_left
  intro b _
  simp only [Function.comp]
  by_cases h : fix_ws_flag > 1 ∧ is_whitespace fix_ws_flag b = true
  · simp [h, is_whitespace_space]
  · simp only [if_neg h]

theorem fix_whitespace_idempotent_witness :
    NulFree [32, 9, 97, 0xA0, 10, 98, 13, 32] ∧
    fix_whitespace 3 (fix_whitespace 3 [32, 9, 97, 0xA0, 10, 98, 13, 32]) =
      fix_whitespace 3 [32, 9, 97, 0xA0, 10, 98, 13, 32] :=
  ⟨by decide, fix_whitespace_idempotent 3 [32, 9, 97, 0xA0, 10, 98, 13, 32] (by decide)⟩

theorem rdropWhile_append_rtakeWhile (p : Nat → Bool) (l : List Nat) :
    l.rdropWhile p ++ l.rtakeWhile p = l := by
  simp only [List.rdropWhile, List.rtakeWhile, ← List.reverse_append,
    List.takeWhile_append_dropWhile, List.reverse_reverse]

/-- Claim C8: with `P` the longest whitespace-class prefix of `s`, `S` the
longest whitespace-class suffix of the remainder and `M` what lies between,
`s = P ++ M ++ S`; `fix_whitespace` returns `M` when `fix_ws_flag <= 1` and `M`
with every whitespace-class byte replaced by 0x20 (same length) when
`fix_ws_flag >= 2`; the result is empty or begins and ends with a byte outside
the class; the class is 0x20, 0x09, 0xA0, and 0x0A, 0x0D exactly when
`fix_ws_flag >= 3`; two spaces, "report", two spaces at severity 1 gives "report". -/
theorem fix_whitespace_spec (fix_ws_flag : Int) (s : List Nat) (hs : NulFree s) :
    (∀ b, is_whitespace fix_ws_flag b = true ↔
      (b = 0x20 ∨ b = 0x09 ∨ b = 0xA0 ∨ (fix_ws_flag ≥ 3 ∧ (b = 0x0A ∨ b = 0x0D)))) ∧
    s = s.takeWhile (is_whitespace fix_ws_flag)
        ++ (s.dropWhile (is_whitespace fix_ws_flag)).rdropWhile (is_whitespace fix_ws_flag)
        ++ (s.dropWhile (is_whitespace fix_ws_flag)).rtakeWhile (is_whitespace fix_ws_flag) ∧
    (fix_ws_flag ≤ 1 → fix_whitespace fix_ws_flag s =
      (s.dropWhile (is_whitespace fix_ws_flag)).rdropWhile (is_whitespace fix_ws_flag)) ∧
    (fix_ws_flag ≥ 2 → fix_whitespace fix_ws_flag s =
      ((s.dropWhile (is_whitespace fix_ws_flag)).rdropWhile (is_whitespace fix_ws_flag)).map
        (blank fix_ws_flag)) ∧
    (fix_whitespace fix_ws_flag s).length =
      ((s.dropWhile (is_whitespace fix_ws_flag)).rdropWhile (is_whitespace fix_ws_flag)).length ∧
    Trimmed fix_ws_flag (fix_whitespace fix_ws_flag s) ∧
    fix_whitespace 1 [32, 32, 114, 101, 112, 111, 114, 116, 32, 32]
      = [114, 101, 112, 111, 114, 116] := by
  refine ⟨?_, ?_, ?_, ?_, ?_, trimmed_fix_whitespace fix_ws_flag s hs, by decide⟩
  · intro b
    have h3 : fix_ws_flag > 2 ↔ fix_ws_flag ≥ 3 := by omega
    simp only [is_whitespace, decide_eq_true_eq, h3]
  · rw [List.append_assoc, rdropWhile_append_rtakeWhile, List.takeWhile_append_dropWhile]
  · intro hf
    rw [fix_whitespace_eq fix_ws_flag s hs]
    have : (fun b => if fix_ws_flag > 1 ∧ is_whitespace fix_ws_flag b = true then 32 else b)
        = id := by
      funext b
      rw [if_neg (by omega)]
      rfl
    rw [this, List.map_id]
  · intro hf
    rw [fix_whitespace_eq fix_ws_flag s hs]
    apply List.map_congr_left
    intro b _
    unfold blank
    by_cases h : is_whitespace fix_ws_flag b = true
    · rw [if_pos ⟨by omega, h⟩, if_pos h]
    · rw [if_neg (fun hh => h hh.2), if_neg h]
  · rw [fix_whitespace_eq fix_ws_flag s hs, List.length_map]

theorem fix_whitespace_spec_witness :
    NulFree [32, 9, 97, 0xA0, 10, 98, 13, 32] ∧
    ((∀ b, is_whitespace (2 : Int) b = true ↔
      (b = 0x20 ∨ b = 0x09 ∨ b = 0xA0 ∨ ((2 : Int) ≥ 3 ∧ (b = 0x0A ∨ b = 0x0D)))) ∧
    [32, 9, 97, 0xA0, 10, 98, 13, 32] = [32, 9, 97, 0xA0, 10, 98, 13, 32].takeWhile (is_whitespace (2 : Int))
        ++ ([32, 9, 97, 0xA0, 10, 98, 13, 32].dropWhile (is_whitespace (2 : Int))).rdropWhile (is_whitespace (2 : Int))
        ++ ([32, 9, 97, 0xA0, 10, 98, 13, 32].dropWhile (is_whitespace (2 : Int))).rtakeWhile (is_whitespace (2 : Int)) ∧
    ((2 : Int) ≤ 1 → fix_whitespace (2 : Int) [32, 9, 97, 0xA0, 10, 98, 13, 32] =
      ([32, 9, 97, 0xA0, 10, 98, 13, 32].dropWhile (is_whitespace (2 : Int))).rdropWhile (is_whitespace (2 : Int))) ∧
    ((2 : Int) ≥ 2 → fix_whitespace (2 : Int) [32, 9, 97, 0xA0, 10, 98, 13, 32] =
      (([32, 9, 97, 0xA0, 10, 98, 13, 32].dropWhile (is_whitespace (2 : Int))).rdropWhile (is_whitespace (2 : Int))).map
        (blank (2 : Int))) ∧
    (fix_whitespace (2 : Int) [32, 9, 97, 0xA0, 10, 98, 13, 32]).length =
      (([32, 9, 97, 0xA0, 10, 98, 13, 32].dropWhile (is_whitespace (2 : Int))).rdropWhile (is_whitespace (2 : Int))).length ∧
    Trimmed (2 : Int) (fix_whitespace (2 : Int) [32, 9, 97, 0xA0, 10, 98, 13, 32]) ∧
    fix_whitespace 1 [32, 32, 114, 101, 112, 111, 114, 116, 32, 32]
      = [114, 101, 112, 111, 114, 116]) :=
  ⟨by decide, fix_whitespace_spec 2 [32, 9, 97, 0xA0, 10, 98, 13, 32] (by decide)⟩

/-! ## The traversal callback -/

theorem strcmp_eq_zero_iff (a : List Nat) : ∀ b : List Nat, NulFree a → NulFree b →
    (strcmp a b = 0 ↔ a = b) := by
  induction a with
  | nil =>
    intro b _ hb
    cases b with
    | nil => simp [strcmp]
    | cons y r =>
      have := (nulFree_cons hb).1.1
      simp only [strcmp]
      constructor
      · intro h; omega
      · intro h; simp at h
  | cons x l ih =>
    intro b ha hb
    obtain ⟨⟨hx, -⟩, hl⟩ := nulFree_cons ha
    cases b with
    | nil =>
      simp only [strcmp]
      constructor
      · intro h; omega
      · intro h; simp at h
    | cons y r =>
      obtain ⟨-, hr⟩ := nulFree_cons hb
      simp only [strcmp]
      by_cases hxy : x = y
      · subst hxy
        simp only [ne_eq, not_true_eq_false, if_false, if_neg (Nat.pos_iff_ne_zero.mp hx),
          ih r hl hr, List.cons.injEq, true_and]
      · rw [if_pos hxy]
        constructor
        · intro h; omega
        · intro h; simp only [List.cons.injEq] at h; exact absurd h.1 hxy

theorem headD_eq_zero_iff (t : List Nat) (ht : NulFree t) : t.headD 0 = 0 ↔ t = [] := by
  cases t with
  | nil => simp
  | cons b bs =>
    have := (nulFree_cons ht).1.1
    simp only [List.headD_cons]
    constructor
    · intro h; omega
    · intro h; simp at h

theorem nulFree_fix_invalid (t : List Nat) (ht : NulFree t) : NulFree (fix_invalid t) := by
  induction t with
  | nil => intro c hc; simp [fix_invalid] at hc
  | cons b bs ih =>
    obtain ⟨⟨h0, hb⟩, hbs⟩ := nulFree_cons ht
    rw [fix_invalid_cons _ _ h0]
    intro c hc
    rcases List.mem_append.mp hc with h | h
    · exact fixByte_nulFree b h0 hb c h
    · exact ih hbs c h

theorem nulFree_path_last (p : List Nat) (hp : NulFree p) : NulFree (path_last p) := by
  unfold path_last
  split
  · exact fun b hb => hp b (List.mem_of_mem_drop hb)
  · exact hp

theorem nulFree_tested_name (cfg : Config) (path : List Nat) (hp : NulFree path) :
    NulFree (tested_name cfg path) := by
  have h := nulFree_path_last (cstr path) (by rw [cstr_nulFree path hp]; exact hp)
  unfold tested_name
  split_ifs
  · exact nulFree_fix_whitespace _ _ h
  · exact h

@[simp] theorem classes_call (st : State) (c : Call) : (st.call c).classes = st.classes := rfl

@[simp] theorem classes_diag (st : State) (d : Diag) : (st.diag d).classes = st.classes := rfl

@[simp] theorem classes_log (st : State) (b : List Nat) : (st.log b).classes = st.classes := rfl

@[simp] theorem classes_log_tag (cfg : Config) (level : Int) (p t : List Nat) (st : State) :
    (log_tag cfg level p t st).classes = st.classes := by
  unfold log_tag
  split_ifs <;> rfl

@[simp] theorem classes_inc_nf (st : State) : st.inc_nf.classes = st.classes := rfl

@[simp] theorem classes_inc_nd (st : State) : st.inc_nd.classes = st.classes := rfl

@[simp] theorem classes_inc_ns (st : State) : st.inc_ns.classes = st.classes := rfl

@[simp] theorem classes_inc_nm (st : State) : st.inc_nm.classes = st.classes := rfl

@[simp] theorem classes_inc_fixed (st : State) : st.inc_fixed.classes = st.classes := rfl

@[simp] theorem classes_set_errno (st : State) (e : Errno) :
    (st.set_errno e).classes = st.classes := rfl

@[simp] theorem classes_set_fs (st : State) (fs : FS) : (st.set_fs fs).classes = st.classes := rfl

@[simp] theorem classes_rename_in_dir (cfg : Config) (dir old new : List Nat) (st : State) :
    (rename_in_dir cfg dir old new st).2.classes = st.classes := by
  unfold rename_in_dir
  simp only
  split
  · rfl
  · split_ifs
    · split <;> rfl
    · rfl

@[simp] theorem classes_walker_rename (cfg : Config) (path rest last np : List Nat) (isof : Int)
    (st : State) : (walker_rename cfg path rest last np isof st).2.classes = st.classes := by
  unfold walker_rename
  simp only
  split_ifs <;> simp

/-- The classification counters after the classification part of `walker`. -/
theorem classes_walker_name (cfg : Config) (iconv : List Nat → Nat → IconvResult)
    (path rest last : List Nat) (st : State) :
    (walker_name cfg iconv path rest last st).2.classes =
      if cfg.fix_ws_flag ≠ 0 ∧
          (if cfg.fix_ws_flag ≠ 0 then fix_whitespace cfg.fix_ws_flag last else last).headD 0 = 0
      then st.classes
      else if is_ascii (if cfg.fix_ws_flag ≠ 0 then fix_whitespace cfg.fix_ws_flag last else last)
          ≠ 0
      then (st.n_ascii + 1, st.n_utf_8, st.n_iso8859_1, st.n_other)
      else if is_utf_8 (if cfg.fix_ws_flag ≠ 0 then fix_whitespace cfg.fix_ws_flag last else last)
          ≠ 0
      then (st.n_ascii, st.n_utf_8 + 1, st.n_iso8859_1, st.n_other)
      else if is_iso8859_1
          (if cfg.fix_ws_flag ≠ 0 then fix_whitespace cfg.fix_ws_flag last else last) ≠ 0
      then (st.n_ascii, st.n_utf_8, st.n_iso8859_1 + 1, st.n_other)
      else if strcmp
          (fix_invalid (if cfg.fix_ws_flag ≠ 0 then fix_whitespace cfg.fix_ws_flag last else last))
          (if cfg.fix_ws_flag ≠ 0 then fix_whitespace cfg.fix_ws_flag last else last) = 0
      then st.classes
      else (st.n_ascii, st.n_utf_8, st.n_iso8859_1, st.n_other + 1) := by
  have hst0 : (if cfg.fix_ws_flag ≠ 0 then st.call (.fix_whitespace last) else st).classes
      = st.classes := by split_ifs <;> rfl
  unfold walker_name
  simp only
  split_ifs with h1 h2 h3 h4 h5 h6 h7 h8
  all_goals (try split)
  all_goals
    simp only [classes_log_tag, classes_walker_rename, classes_call, classes_diag]
  all_goals rfl

/-- Claim C9, refuted as stated: for the regular file named by the single byte
0xA0 (rejected by the three classifiers and left as it is by `fix_invalid`),
and for the name of two spaces under whitespace repair, one call of `walker`
changes none of the four classification counters. -/
theorem walker_counts_none :
    (NulFree [0xA0] ∧ FtwFlag.counted .FTW_F = true ∧
      ¬ OneClassCounted (State.init [])
        (walker Config.plain iconv_latin1 [0xA0] .FTW_F (State.init [])).2 ∧
      (walker Config.plain iconv_latin1 [0xA0] .FTW_F (State.init [])).2.classes
        = (State.init []).classes) ∧
    (NulFree [32, 32] ∧
      ¬ OneClassCounted (State.init [])
        (walker { Config.plain with fix_ws_flag := 1 } iconv_latin1 [32, 32] .FTW_F
          (State.init [])).2) := by
  decide

/-- Claim C9, amended: for an entry that is a regular file, a directory or a
symbolic link, one call of `walker` increments at most one of `n_ascii`,
`n_utf_8`, `n_iso8859_1`, `n_other`, by one, and leaves the others unchanged.
None is incremented when the name is empty after whitespace repair, or when it
is rejected by the three classifiers and `fix_invalid` does not change it;
otherwise exactly one is, chosen in the order ASCII, UTF-8, ISO8859-1, Other. -/
theorem walker_counts_class (cfg : Config) (iconv : List Nat → Nat → IconvResult)
    (path : List Nat) (flags : FtwFlag) (st : State)
    (hp : NulFree path) (hk : flags.counted = true) :
    (Uncounted cfg path → (walker cfg iconv path flags st).2.classes = st.classes) ∧
    (¬ Uncounted cfg path →
      OneClassCounted st (walker cfg iconv path flags st).2 ∧
      (walker cfg iconv path flags st).2.classes =
        if is_ascii (tested_name cfg path) ≠ 0
        then (st.n_ascii + 1, st.n_utf_8, st.n_iso8859_1, st.n_other)
        else if is_utf_8 (tested_name cfg path) ≠ 0
        then (st.n_ascii, st.n_utf_8 + 1, st.n_iso8859_1, st.n_other)
        else if is_iso8859_1 (tested_name cfg path) ≠ 0
        then (st.n_ascii, st.n_utf_8, st.n_iso8859_1 + 1, st.n_other)
        else (st.n_ascii, st.n_utf_8, st.n_iso8859_1, st.n_other + 1)) := by
  have hk2 : ∃ st1, count_kind flags st = some st1 ∧ st1.classes = st.classes := by
    cases flags <;> simp [FtwFlag.counted] at hk <;> exact ⟨_, rfl, rfl⟩
  obtain ⟨st1, hck, hcl⟩ := hk2
  have ht := nulFree_tested_name cfg path hp
  have hw : (walker cfg iconv path flags st).2.classes =
      (walker_name cfg iconv (cstr path) (path_rest (cstr path)) (path_last (cstr path))
        st1).2.classes := by
    unfold walker; rw [hck]
  have htn : (if cfg.fix_ws_flag ≠ 0 then fix_whitespace cfg.fix_ws_flag (path_last (cstr path))
      else path_last (cstr path)) = tested_name cfg path := rfl
  unfold Uncounted OneClassCounted
  rw [hw, classes_walker_name, htn, hcl]
  simp only [State.classes, Prod.mk.injEq] at hcl
  obtain ⟨e1, e2, e3, e4⟩ := hcl
  simp only [e1, e2, e3, e4, headD_eq_zero_iff _ ht,
    strcmp_eq_zero_iff _ _ (nulFree_fix_invalid _ ht) ht]
  generalize tested_name cfg path = t
  constructor
  · rintro (h | ⟨h1, h2, h3, h4⟩)
    · rw [if_pos h]
    · by_cases h0 : cfg.fix_ws_flag ≠ 0 ∧ t = []
      · rw [if_pos h0]
      · rw [if_neg h0, if_neg (by simp [h1]), if_neg (by simp [h2]), if_neg (by simp [h3]),
          if_pos h4]
  · intro hn
    rw [not_or] at hn
    obtain ⟨hn1, hn2⟩ := hn
    rw [if_neg hn1]
    by_cases h1 : is_ascii t ≠ 0
    · simp only [if_pos h1, State.classes, true_or, and_self]
    · by_cases h2 : is_utf_8 t ≠ 0
      · simp only [if_neg h1, if_pos h2, State.classes, true_or, or_true, and_self]
      · by_cases h3 : is_iso8859_1 t ≠ 0
        · simp only [if_neg h1, if_neg h2, if_pos h3, State.classes, true_or, or_true, and_self]
        · have h4 : ¬ fix_invalid t = t := by
            intro h4
            exact hn2 ⟨not_not.mp h1, not_not.mp h2, not_not.mp h3, h4⟩
          simp only [if_neg h1, if_neg h2, if_neg h3, if_neg h4, State.classes, or_true,
            and_self]

theorem walker_counts_class_witness :
    NulFree [100, 47, 0x63, 0xE9] ∧ FtwFlag.counted .FTW_F = true ∧
    ¬ Uncounted Config.plain [100, 47, 0x63, 0xE9] ∧
    OneClassCounted (State.init [])
      (walker Config.plain iconv_latin1 [100, 47, 0x63, 0xE9] .FTW_F (State.init [])).2 ∧
    (walker Config.plain iconv_latin1 [100, 47, 0x63, 0xE9] .FTW_F (State.init [])).2.classes
      = (0, 0, 1, 0) :=
  ⟨by decide, by decide, by decide,
    ((walker_counts_class Config.plain iconv_latin1 [100, 47, 0x63, 0xE9] .FTW_F (State.init [])
      (by decide) (by decide)).2 (by decide)).1, by decide⟩

/-! ## The rename engine -/

/-- What the guard of `rename_in_dir` decides: the destination is refused when
`stat` succeeds on it, and `rename` is called exactly when `stat` fails and
dry-run is off; a refusal and a dry run leave the file system as it was. -/
theorem rename_in_dir_guard (cfg : Config) (dir old new : List Nat) (st : State) :
    (∀ nd, stat st.fs (join_path dir new) = .ok nd →
      (rename_in_dir cfg dir old new st).1 = -1 ∧
      (rename_in_dir cfg dir old new st).2.errno = some .EEXIST ∧
      (rename_in_dir cfg dir old new st).2.fs = st.fs ∧
      (rename_in_dir cfg dir old new st).2.calls
        = st.calls ++ [.stat (join_path dir new)]) ∧
    (∀ e, stat st.fs (join_path dir new) = .error e → cfg.nowrite ≠ 0 →
      (rename_in_dir cfg dir old new st).1 = 0 ∧
      (rename_in_dir cfg dir old new st).2.fs = st.fs ∧
      (rename_in_dir cfg dir old new st).2.calls
        = st.calls ++ [.stat (join_path dir new)]) ∧
    (∀ e, stat st.fs (join_path dir new) = .error e → cfg.nowrite = 0 →
      (rename_in_dir cfg dir old new st).2.calls
        = st.calls ++ [.stat (join_path dir new),
            .rename (join_path dir old) (join_path dir new)]) := by
  refine ⟨fun nd h => ?_, fun e h hn => ?_, fun e h hn => ?_⟩
  · simp [rename_in_dir, h, State.call, State.set_errno]
  · simp [rename_in_dir, h, if_neg hn, State.call, State.set_errno]
  · simp only [rename_in_dir, h, if_pos hn]
    split <;> simp [State.call, State.set_fs, State.set_errno]

/-- A destination that is a regular file or a directory is seen by `stat`. -/
theorem stat_of_entry (fs : FS) (p : List Nat) (nd : Node)
    (h : fs.entry p = some nd) (hl : ∀ target, nd ≠ .symlink target) : stat fs p = .ok nd := by
  unfold stat stat_follow
  rw [h]
  cases nd with
  | file => rfl
  | dir => rfl
  | symlink target => exact absurd rfl (hl target)

/-- Claim C10, evaluated where the code departs from it: in a directory `d`
holding a file `a` and a symbolic link `b` whose target is missing, an entry
exists at `d/b`, yet `rename_in_dir("d", "a", "b")` with dry-run off calls
`rename`, returns 0 and replaces the entry at `d/b`; with a regular file at
`d/b` the same call is refused with `EEXIST` and nothing changes. -/
theorem rename_in_dir_replaces_dangling_link :
    dangling_fs.entry [100, 47, 98] = some (.symlink [100, 47, 120]) ∧
    (rename_in_dir Config.plain [100] [97] [98] (State.init dangling_fs)).1 = 0 ∧
    Call.rename [100, 47, 97] [100, 47, 98] ∈
      (rename_in_dir Config.plain [100] [97] [98] (State.init dangling_fs)).2.calls ∧
    (rename_in_dir Config.plain [100] [97] [98] (State.init dangling_fs)).2.fs
      = [([100], .dir), ([100, 47, 98], .file)] ∧
    (rename_in_dir Config.plain [100] [97] [98]
        (State.init [([100], .dir), ([100, 47, 97], .file), ([100, 47, 98], .file)])).1 = -1 ∧
    (rename_in_dir Config.plain [100] [97] [98]
        (State.init [([100], .dir), ([100, 47, 97], .file), ([100, 47, 98], .file)])).2.errno
      = some .EEXIST ∧
    (rename_in_dir Config.plain [100] [97] [98]
        (State.init [([100], .dir), ([100, 47, 97], .file), ([100, 47, 98], .file)])).2.fs
      = [([100], .dir), ([100, 47, 97], .file), ([100, 47, 98], .file)] := by
  decide

/-! ## Transcoding -/

set_option maxRecDepth 100000 in
theorem latin1_bytes : ∀ b < 256, 0x80 ≤ b →
    (0xC0 ||| (b >>> 6) = if b < 0xC0 then 0xC2 else 0xC3) ∧
    (0x80 ||| (b &&& 0x3F) = 0x80 + b % 64) := by
  decide

theorem is_utf_8_loop_01 (s : List Nat) : ∀ state len : Int,
    is_utf_8_loop s state len = 0 ∨ is_utf_8_loop s state len = 1 := by
  induction s with
  | nil => intro state len; simp only [is_utf_8_loop]; split_ifs <;> simp
  | cons b bs ih =>
    intro state len
    simp only [is_utf_8_loop]
    split_ifs <;> first | exact ih _ _ | simp

theorem is_utf_8_01 (s : List Nat) : is_utf_8 s = 0 ∨ is_utf_8 s = 1 :=
  is_utf_8_loop_01 s 0 0

theorem is_ascii_loop_01 (s : List Nat) : ∀ k : Nat,
    is_ascii_loop s k = 0 ∨ is_ascii_loop s k = 1 := by
  intro k
  induction k with
  | zero => simp [is_ascii_loop]
  | succ k ih =>
    simp only [is_ascii_loop]
    split_ifs <;> first | exact ih | simp

theorem is_ascii_01 (s : List Nat) : is_ascii s = 0 ∨ is_ascii s = 1 :=
  is_ascii_loop_01 s _

theorem is_iso8859_1_01 (s : List Nat) : is_iso8859_1 s = 0 ∨ is_iso8859_1 s = 1 := by
  induction s with
  | nil => simp [is_iso8859_1]
  | cons b bs ih =>
    simp only [is_iso8859_1]
    split_ifs <;> first | exact ih | simp

theorem is_ascii_one_iff (s : List Nat) (hs : NulFree s) :
    is_ascii s = 1 ↔ ∀ b ∈ s, 0x20 ≤ b ∧ b ≤ 0x7E := by
  unfold is_ascii
  rw [strlen_nulFree s hs, is_ascii_loop_iff s hs s.length le_rfl, List.take_length]

theorem is_iso8859_1_one_iff (s : List Nat) (hs : NulFree s) :
    is_iso8859_1 s = 1 ↔ ∀ b ∈ s, (0x20 ≤ b ∧ b ≤ 0x7E) ∨ (0xA1 ≤ b ∧ b ≤ 0xFF) := by
  induction s with
  | nil => simp [is_iso8859_1]
  | cons b bs ih =>
    obtain ⟨⟨h0, hb⟩, hbs⟩ := nulFree_cons hs
    simp only [is_iso8859_1, if_neg (Nat.pos_iff_ne_zero.mp h0), List.forall_mem_cons]
    by_cases hr : b < 32 ∨ (b ≥ 0x7F ∧ b ≤ 0xA0)
    · rw [if_pos hr]
      exact ⟨fun h => by simp at h, fun h => by omega⟩
    · rw [if_neg hr]
      exact ⟨fun h => ⟨by omega, (ih hbs).mp h⟩, fun h => (ih hbs).mpr h.2⟩

/-- The Latin-1 to UTF-8 map sends printable ASCII bytes and bytes from `0x80`
on to a string that `is_utf_8` accepts. -/
theorem is_utf_8_latin1 (s : List Nat)
    (hs : ∀ b ∈ s, (0x20 ≤ b ∧ b ≤ 0x7E) ∨ (0x80 ≤ b ∧ b ≤ 0xFF)) :
    is_utf_8_loop (latin1_to_utf8 s) 0 0 = 1 := by
  induction s with
  | nil => simp [latin1_to_utf8, is_utf_8_loop]
  | cons b bs ih =>
    have hb := hs b (by simp)
    have ih2 := ih (fun c hc => hs c (by simp [hc]))
    by_cases hlt : b < 0x80
    · simp only [latin1_to_utf8, if_pos hlt]
      rw [loop_state0 b _ _ (by omega) (by omega), if_pos (by omega)]
      exact ih2
    · obtain ⟨e1, e2⟩ := latin1_bytes b (by omega) (by omega)
      simp only [latin1_to_utf8, if_neg hlt, e1, e2]
      have hc0 : 0 < 0x80 + b % 64 := by omega
      have hc1 : 0x80 + b % 64 < 256 := by omega
      split_ifs
      · rw [loop_state0 0xC2 _ _ (by omega) (by omega), if_neg (by omega), if_pos (by omega),
          loop_state1 _ _ _ hc0 hc1, if_pos (by omega)]
        simpa using ih2
      · rw [loop_state0 0xC3 _ _ (by omega) (by omega), if_neg (by omega), if_pos (by omega),
          loop_state1 _ _ _ hc0 hc1, if_pos (by omega)]
        simpa using ih2

theorem latin1_length (s : List Nat) : (latin1_to_utf8 s).length ≤ 2 * s.length := by
  induction s with
  | nil => simp [latin1_to_utf8]
  | cons b bs ih =>
    simp only [latin1_to_utf8]
    split_ifs <;> simp only [List.length_cons] <;> omega

theorem nulFree_latin1 (s : List Nat) (hs : NulFree s) : NulFree (latin1_to_utf8 s) := by
  induction s with
  | nil => intro c hc; simp [latin1_to_utf8] at hc
  | cons b bs ih =>
    obtain ⟨⟨h0, hb⟩, hbs⟩ := nulFree_cons hs
    intro c hc
    simp only [latin1_to_utf8] at hc
    split_ifs at hc with hlt
    · rcases List.mem_cons.mp hc with rfl | h
      · exact ⟨h0, hb⟩
      · exact ih hbs c h
    · obtain ⟨e1, e2⟩ := latin1_bytes b hb (by omega)
      rw [e1, e2] at hc
      rcases List.mem_cons.mp hc with rfl | h
      · split_ifs <;> omega
      · rcases List.mem_cons.mp h with rfl | h
        · omega
        · exact ih hbs c h

theorem iconv_latin1_loop_fits (bs : List Nat) : ∀ (n : Nat) (acc : List Nat),
    (latin1_to_utf8 bs).length ≤ n →
    iconv_latin1_loop bs n acc = ⟨0, acc ++ latin1_to_utf8 bs⟩ := by
  induction bs with
  | nil => intro n acc _; simp [iconv_latin1_loop, latin1_to_utf8]
  | cons b bs ih =>
    intro n acc hn
    simp only [latin1_to_utf8] at hn ⊢
    simp only [iconv_latin1_loop]
    split_ifs at hn ⊢ with h1 h2 h3
    · simp only [List.length_cons] at hn; omega
    · simp only [List.length_cons] at hn
      rw [ih (n - 1) _ (by omega)]
      simp
    · simp only [List.length_cons] at hn; omega
    · simp only [List.length_cons] at hn
      rw [ih (n - 2) _ (by omega)]
      simp

theorem take_strlen (s : List Nat) : s.take (strlen s) = cstr s := by
  induction s with
  | nil => rfl
  | cons b bs ih =>
    simp only [strlen, cstr]
    split_ifs
    · rfl
    · simp [ih]

/-- On a name of at most 5120 bytes the default converter fills no more than
the 10240-byte buffer and `conv` returns the Latin-1 to UTF-8 image. -/
theorem conv_iconv_latin1 (x : List Nat) (hx : NulFree x) (hl : x.length ≤ 5120) :
    conv iconv_latin1 x = some (latin1_to_utf8 x) := by
  have hfit : (latin1_to_utf8 x).length ≤ 10240 := by
    have := latin1_length x
    omega
  simp only [conv, iconv_latin1, take_strlen, cstr_nulFree x hx,
    iconv_latin1_loop_fits x 10240 [] hfit, List.nil_append,
    cstr_nulFree _ (nulFree_latin1 x hx)]
  simp

theorem is_utf_8_high (s : List Nat) (hne : s ≠ []) (hs : ∀ b ∈ s, 0xC0 ≤ b ∧ b ≤ 0xFF) :
    is_utf_8 s = 0 := by
  cases s with
  | nil => exact absurd rfl hne
  | cons b bs =>
    have hb := hs b (by simp)
    unfold is_utf_8
    rw [loop_state0 b bs 0 (by omega) (by omega)]
    have tail : ∀ n : Int, is_utf_8_loop bs 1 n = 0 := by
      intro n
      cases bs with
      | nil => simp [is_utf_8_loop]
      | cons c cs =>
        have hc := hs c (by simp)
        rw [loop_state1 c cs n (by omega) (by omega), if_neg (by omega)]
    split_ifs <;> first | exact tail _ | rfl | omega

/-- Claim C11: a non-empty name whose bytes all lie in 0xC0-0xFF is rejected by
`is_ascii` and `is_utf_8` and accepted by `is_iso8859_1`; the Latin-1 to UTF-8
image of every name accepted by `is_iso8859_1` is accepted by `is_utf_8`, and
it is what `conv` returns on the default converter for a name that fits its
buffer; the name 63 61 66 E9 2E 74 78 74 is classified ISO8859-1 and
transcodes to 63 61 66 C3 A9 2E 74 78 74, which `is_utf_8` accepts. -/
theorem latin1_round_trip (s : List Nat) (hs : NulFree s) :
    ((s ≠ [] ∧ ∀ b ∈ s, 0xC0 ≤ b ∧ b ≤ 0xFF) →
      is_ascii s = 0 ∧ is_utf_8 s = 0 ∧ is_iso8859_1 s = 1 ∧
      is_utf_8 (latin1_to_utf8 s) = 1) ∧
    (is_iso8859_1 s = 1 → is_utf_8 (latin1_to_utf8 s) = 1) ∧
    (s.length ≤ 5120 → conv iconv_latin1 s = some (latin1_to_utf8 s)) ∧
    (is_ascii [0x63, 0x61, 0x66, 0xE9, 0x2E, 0x74, 0x78, 0x74] = 0 ∧
      is_utf_8 [0x63, 0x61, 0x66, 0xE9, 0x2E, 0x74, 0x78, 0x74] = 0 ∧
      is_iso8859_1 [0x63, 0x61, 0x66, 0xE9, 0x2E, 0x74, 0x78, 0x74] = 1 ∧
      conv iconv_latin1 [0x63, 0x61, 0x66, 0xE9, 0x2E, 0x74, 0x78, 0x74]
        = some [0x63, 0x61, 0x66, 0xC3, 0xA9, 0x2E, 0x74, 0x78, 0x74] ∧
      is_utf_8 [0x63, 0x61, 0x66, 0xC3, 0xA9, 0x2E, 0x74, 0x78, 0x74] = 1) := by
  have hiso : is_iso8859_1 s = 1 → is_utf_8 (latin1_to_utf8 s) = 1 := by
    intro h
    apply is_utf_8_latin1
    intro b hb
    rcases (is_iso8859_1_one_iff s hs).mp h b hb with h1 | h1
    · exact Or.inl h1
    · exact Or.inr (by omega)
  refine ⟨?_, hiso, conv_iconv_latin1 s hs, by decide⟩
  rintro ⟨hne, hhigh⟩
  have h3 : is_iso8859_1 s = 1 :=
    (is_iso8859_1_one_iff s hs).mpr (fun b hb => Or.inr (by have := hhigh b hb; omega))
  refine ⟨?_, is_utf_8_high s hne hhigh, h3, hiso h3⟩
  rcases is_ascii_01 s with h | h
  · exact h
  · exfalso
    obtain ⟨b, bs, rfl⟩ := List.exists_cons_of_ne_nil hne
    have h1 := (is_ascii_one_iff _ hs).mp h b (by simp)
    have h2 := hhigh b (by simp)
    omega

theorem latin1_round_trip_witness :
    NulFree [0xC9, 0xE9, 0xFF] ∧ ([0xC9, 0xE9, 0xFF] ≠ [] ∧ ∀ b ∈ [0xC9, 0xE9, 0xFF], 0xC0 ≤ b ∧ b ≤ 0xFF) ∧
    is_ascii [0xC9, 0xE9, 0xFF] = 0 ∧ is_utf_8 [0xC9, 0xE9, 0xFF] = 0 ∧
    is_iso8859_1 [0xC9, 0xE9, 0xFF] = 1 ∧
    is_utf_8 (latin1_to_utf8 [0xC9, 0xE9, 0xFF]) = 1 :=
  ⟨by decide, by decide,
    (latin1_round_trip [0xC9, 0xE9, 0xFF] (by decide)).1 (by decide)⟩

/-! ## The traversal callback, branch by branch -/

theorem log_tag_eq (cfg : Config) (level : Int) (p t : List Nat) (st : State) :
    ∃ l, log_tag cfg level p t st = st.log l := by
  unfold log_tag
  split_ifs
  · exact ⟨_, rfl⟩
  · exact ⟨[], by simp [State.log]⟩

theorem count_kind_counted (flags : FtwFlag) (st : State) (hk : flags.counted = true) :
    ∃ st1, count_kind flags st = some st1 ∧ st1.classes = st.classes ∧ st1.nm = st.nm ∧
      st1.n_fixed = st.n_fixed ∧ st1.fs = st.fs ∧ st1.calls = st.calls ∧
      st1.stderr = st.stderr ∧ st1.errno = st.errno := by
  cases flags <;> simp [FtwFlag.counted] at hk <;>
    exact ⟨_, rfl, rfl, rfl, rfl, rfl, rfl, rfl, rfl⟩

/-- Claim C12: with whitespace repair off, a file, directory or symlink whose
name `is_ascii` accepts makes `walker` increment `n_ascii` only, call nothing,
leave `nm`, `n_fixed` and the file system as they were, report no error and
return 0 whatever `errexit_flag` is; a name rejected by `is_ascii` and accepted
by `is_utf_8` does the same with `n_utf_8`. -/
theorem walker_clean_name (cfg : Config) (iconv : List Nat → Nat → IconvResult)
    (path : List Nat) (flags : FtwFlag) (st : State)
    (hk : flags.counted = true) (hws : cfg.fix_ws_flag = 0) :
    (is_ascii (path_last (cstr path)) = 1 →
      (walker cfg iconv path flags st).1 = 0 ∧
      (walker cfg iconv path flags st).2.classes
        = (st.n_ascii + 1, st.n_utf_8, st.n_iso8859_1, st.n_other) ∧
      (walker cfg iconv path flags st).2.nm = st.nm ∧
      (walker cfg iconv path flags st).2.n_fixed = st.n_fixed ∧
      (walker cfg iconv path flags st).2.fs = st.fs ∧
      (walker cfg iconv path flags st).2.calls = st.calls ∧
      (walker cfg iconv path flags st).2.stderr = st.stderr) ∧
    (is_ascii (path_last (cstr path)) = 0 → is_utf_8 (path_last (cstr path)) = 1 →
      (walker cfg iconv path flags st).1 = 0 ∧
      (walker cfg iconv path flags st).2.classes
        = (st.n_ascii, st.n_utf_8 + 1, st.n_iso8859_1, st.n_other) ∧
      (walker cfg iconv path flags st).2.nm = st.nm ∧
      (walker cfg iconv path flags st).2.n_fixed = st.n_fixed ∧
      (walker cfg iconv path flags st).2.fs = st.fs ∧
      (walker cfg iconv path flags st).2.calls = st.calls ∧
      (walker cfg iconv path flags st).2.stderr = st.stderr) := by
  obtain ⟨st1, hck, h1, h2, h3, h4, h5, h6, -⟩ := count_kind_counted flags st hk
  simp only [State.classes, Prod.mk.injEq] at h1
  obtain ⟨e1, e2, e3, e4⟩ := h1
  constructor
  · intro ha
    have hw : walker cfg iconv path flags st
        = (0, log_tag cfg 2 (cstr path) [32, 91, 65, 83, 67, 73, 73, 93, 10] st1.inc_ascii) := by
      simp [walker, hck, walker_name, hws, ha]
    obtain ⟨l, hl⟩ := log_tag_eq cfg 2 (cstr path) [32, 91, 65, 83, 67, 73, 73, 93, 10]
      st1.inc_ascii
    rw [hw, hl]
    refine ⟨rfl, ?_, h2, h3, h4, h5, h6⟩
    simp only [State.classes, State.log, State.inc_ascii, e1, e2, e3, e4]
  · intro ha hu
    have hw : walker cfg iconv path flags st
        = (0, log_tag cfg 2 (cstr path) [32, 91, 85, 84, 70, 45, 56, 93, 10] st1.inc_utf_8) := by
      simp [walker, hck, walker_name, hws, ha, hu]
    obtain ⟨l, hl⟩ := log_tag_eq cfg 2 (cstr path) [32, 91, 85, 84, 70, 45, 56, 93, 10]
      st1.inc_utf_8
    rw [hw, hl]
    refine ⟨rfl, ?_, h2, h3, h4, h5, h6⟩
    simp only [State.classes, State.log, State.inc_utf_8, e1, e2, e3, e4]

theorem walker_clean_name_witness :
    FtwFlag.counted .FTW_F = true ∧ Config.fix.fix_ws_flag = 0 ∧
    is_ascii (path_last (cstr [100, 47, 97, 98])) = 1 ∧
    (walker Config.fix iconv_latin1 [100, 47, 97, 98] .FTW_F (State.init [])).1 = 0 ∧
    (walker Config.fix iconv_latin1 [100, 47, 97, 98] .FTW_F (State.init [])).2.classes
      = (1, 0, 0, 0) ∧
    (walker Config.fix iconv_latin1 [100, 47, 97, 98] .FTW_F (State.init [])).2.nm = 0 :=
  ⟨by decide, by decide, by decide,
    ((walker_clean_name Config.fix iconv_latin1 [100, 47, 97, 98] .FTW_F (State.init [])
      (by decide) (by decide)).1 (by decide)).1,
    ((walker_clean_name Config.fix iconv_latin1 [100, 47, 97, 98] .FTW_F (State.init [])
      (by decide) (by decide)).1 (by decide)).2.1,
    ((walker_clean_name Config.fix iconv_latin1 [100, 47, 97, 98] .FTW_F (State.init [])
      (by decide) (by decide)).1 (by decide)).2.2.1⟩

theorem fix_whitespace_all_ws (flag : Int) (s : List Nat) (hs : NulFree s)
    (hall : ∀ b ∈ s, is_whitespace flag b = true) : fix_whitespace flag s = [] := by
  have : s.dropWhile (is_whitespace flag) = [] := by
    rw [List.dropWhile_eq_nil_iff]
    exact hall
  rw [fix_whitespace_eq flag s hs, this]
  simp

/-- Claim C15: with whitespace repair on, an entry whose name holds only
whitespace-class bytes (so that `fix_whitespace` returns the empty string)
makes `walker` return `errexit_flag` with no rename: the classification
counters, `nm`, `n_fixed` and the file system are unchanged and the only call
recorded is the one to `fix_whitespace`. -/
theorem walker_empty_name (cfg : Config) (iconv : List Nat → Nat → IconvResult)
    (path : List Nat) (flags : FtwFlag) (st : State)
    (hp : NulFree path) (hk : flags.counted = true) (hf : cfg.fix_ws_flag ≥ 1)
    (hall : ∀ b ∈ path_last (cstr path), is_whitespace cfg.fix_ws_flag b = true) :
    fix_whitespace cfg.fix_ws_flag (path_last (cstr path)) = [] ∧
    (walker cfg iconv path flags st).1 = cfg.errexit_flag ∧
    (walker cfg iconv path flags st).2.classes = st.classes ∧
    (walker cfg iconv path flags st).2.nm = st.nm ∧
    (walker cfg iconv path flags st).2.n_fixed = st.n_fixed ∧
    (walker cfg iconv path flags st).2.fs = st.fs ∧
    (walker cfg iconv path flags st).2.calls
      = st.calls ++ [.fix_whitespace (path_last (cstr path))] ∧
    (walker cfg iconv path flags st).2.stderr = st.stderr := by
  obtain ⟨st1, hck, h1, h2, h3, h4, h5, h6, -⟩ := count_kind_counted flags st hk
  have hlast := nulFree_path_last (cstr path) (by rw [cstr_nulFree path hp]; exact hp)
  have hempty := fix_whitespace_all_ws cfg.fix_ws_flag _ hlast hall
  have hne : cfg.fix_ws_flag ≠ 0 := by omega
  have hw : walker cfg iconv path flags st
      = (cfg.errexit_flag, log_tag cfg 1 (cstr path) [32, 91, 69, 109, 112, 116, 121, 93, 10]
          (st1.call (.fix_whitespace (path_last (cstr path))))) := by
    simp [walker, hck, walker_name, hne, hempty]
  obtain ⟨l, hl⟩ := log_tag_eq cfg 1 (cstr path) [32, 91, 69, 109, 112, 116, 121, 93, 10]
    (st1.call (.fix_whitespace (path_last (cstr path))))
  rw [hw, hl]
  refine ⟨hempty, rfl, h1, h2, h3, h4, ?_, h6⟩
  simp only [State.log, State.call, h5]

theorem walker_empty_name_witness :
    NulFree [100, 47, 32, 9, 0xA0] ∧ FtwFlag.counted .FTW_F = true ∧
    ({ Config.fix with fix_ws_flag := 1, errexit_flag := 1 } : Config).fix_ws_flag ≥ 1 ∧
    (walker { Config.fix with fix_ws_flag := 1, errexit_flag := 1 } iconv_latin1
      [100, 47, 32, 9, 0xA0] .FTW_F (State.init [])).1 = 1 ∧
    (walker { Config.fix with fix_ws_flag := 1, errexit_flag := 1 } iconv_latin1
      [100, 47, 32, 9, 0xA0] .FTW_F (State.init [])).2.nm = 0 :=
  ⟨by decide, by decide, by decide,
    (walker_empty_name { Config.fix with fix_ws_flag := 1, errexit_flag := 1 } iconv_latin1
      [100, 47, 32, 9, 0xA0] .FTW_F (State.init []) (by decide) (by decide) (by decide)
      (by decide)).2.1,
    (walker_empty_name { Config.fix with fix_ws_flag := 1, errexit_flag := 1 } iconv_latin1
      [100, 47, 32, 9, 0xA0] .FTW_F (State.init []) (by decide) (by decide) (by decide)
      (by decide)).2.2.2.1⟩

/-- Claim C16: a name (after the optional whitespace repair) that `is_ascii`,
`is_utf_8` and `is_iso8859_1` reject and that `fix_invalid` returns byte for
byte makes `walker` return `errexit_flag`; neither `conv` nor `rename_in_dir`
is called, and `nm`, `n_fixed` and the file system are unchanged. -/
theorem walker_unfixable_name (cfg : Config) (iconv : List Nat → Nat → IconvResult)
    (path : List Nat) (flags : FtwFlag) (st : State)
    (hp : NulFree path) (hk : flags.counted = true)
    (ha : is_ascii (tested_name cfg path) = 0) (hu : is_utf_8 (tested_name cfg path) = 0)
    (hi : is_iso8859_1 (tested_name cfg path) = 0)
    (hfix : fix_invalid (tested_name cfg path) = tested_name cfg path) :
    (walker cfg iconv path flags st).1 = cfg.errexit_flag ∧
    (walker cfg iconv path flags st).2.nm = st.nm ∧
    (walker cfg iconv path flags st).2.n_fixed = st.n_fixed ∧
    (walker cfg iconv path flags st).2.fs = st.fs ∧
    (walker cfg iconv path flags st).2.calls
      = st.calls
        ++ (if cfg.fix_ws_flag ≠ 0 then [Call.fix_whitespace (path_last (cstr path))] else [])
        ++ [.fix_invalid (tested_name cfg path)] ∧
    (walker cfg iconv path flags st).2.stderr = st.stderr := by
  obtain ⟨st1, hck, -, h2, h3, h4, h5, h6, -⟩ := count_kind_counted flags st hk
  have ht := nulFree_tested_name cfg path hp
  have hne : tested_name cfg path ≠ [] := by
    intro h
    rw [h] at ha
    simp [is_ascii, is_ascii_loop, strlen] at ha
  have hhead : ¬ (tested_name cfg path).headD 0 = 0 := by
    rw [headD_eq_zero_iff _ ht]
    exact hne
  have hcmp : strcmp (fix_invalid (tested_name cfg path)) (tested_name cfg path) = 0 := by
    rw [hfix]
    exact (strcmp_eq_zero_iff _ _ ht ht).mpr rfl
  have htn : (if cfg.fix_ws_flag ≠ 0 then fix_whitespace cfg.fix_ws_flag (path_last (cstr path))
      else path_last (cstr path)) = tested_name cfg path := rfl
  have hw : walker cfg iconv path flags st
      = (cfg.errexit_flag,
          log_tag cfg 1 (cstr path) [32, 91, 85, 110, 102, 105, 120, 97, 98, 108, 101, 93, 10]
            ((if cfg.fix_ws_flag ≠ 0 then st1.call (.fix_whitespace (path_last (cstr path)))
              else st1).call (.fix_invalid (tested_name cfg path)))) := by
    simp only [walker, hck, walker_name, htn, hhead, and_false, if_false, ha, hu, hi,
      ne_eq, not_true_eq_false, hcmp, if_true]
  obtain ⟨l, hl⟩ := log_tag_eq cfg 1 (cstr path)
    [32, 91, 85, 110, 102, 105, 120, 97, 98, 108, 101, 93, 10]
    ((if cfg.fix_ws_flag ≠ 0 then st1.call (.fix_whitespace (path_last (cstr path)))
      else st1).call (.fix_invalid (tested_name cfg path)))
  rw [hw, hl]
  by_cases hz : cfg.fix_ws_flag ≠ 0
  · simp only [if_pos hz]
    refine ⟨trivial, h2, h3, h4, ?_, h6⟩
    simp only [State.log, State.call, h5]
  · simp only [if_neg hz]
    refine ⟨trivial, h2, h3, h4, ?_, h6⟩
    simp only [State.log, State.call, h5, List.append_nil]

theorem walker_unfixable_name_witness :
    NulFree [100, 47, 0xA0] ∧ FtwFlag.counted .FTW_F = true ∧
    (walker { Config.fix with errexit_flag := 1 } iconv_latin1 [100, 47, 0xA0] .FTW_F
      (State.init [])).1 = 1 ∧
    (walker { Config.fix with errexit_flag := 1 } iconv_latin1 [100, 47, 0xA0] .FTW_F
      (State.init [])).2.nm = 0 :=
  ⟨by decide, by decide,
    (walker_unfixable_name { Config.fix with errexit_flag := 1 } iconv_latin1 [100, 47, 0xA0]
      .FTW_F (State.init []) (by decide) (by decide) (by decide) (by decide) (by decide)
      (by decide)).1,
    (walker_unfixable_name { Config.fix with errexit_flag := 1 } iconv_latin1 [100, 47, 0xA0]
      .FTW_F (State.init []) (by decide) (by decide) (by decide) (by decide) (by decide)
      (by decide)).2.1⟩

/-! ## Where the callback departs from the specification -/

/-- Claim C13, evaluated where the code departs from it: under whitespace
repair at severity 1 the name 6C C3 A0, which `is_utf_8` accepts, loses its
last byte 0xA0 to `fix_whitespace`; what is left is rejected by `is_utf_8`,
accepted by `is_iso8859_1` and sent through `conv`, and the entry is renamed to
6C C3 83, which is neither the old name nor `fix_whitespace` of it. -/
theorem walker_transcodes_utf_8_name :
    is_utf_8 [0x6C, 0xC3, 0xA0] = 1 ∧
    fix_whitespace 1 [0x6C, 0xC3, 0xA0] = [0x6C, 0xC3] ∧
    rename_target { Config.fix with fix_ws_flag := 1 } iconv_latin1 [0x6C, 0xC3, 0xA0]
      = some [0x6C, 0xC3, 0x83] ∧
    (walker { Config.fix with fix_ws_flag := 1 } iconv_latin1 [100, 47, 0x6C, 0xC3, 0xA0] .FTW_F
      (State.init (one_file_fs [0x6C, 0xC3, 0xA0]))).2.calls
      = [.fix_whitespace [0x6C, 0xC3, 0xA0], .conv [0x6C, 0xC3],
         .rename_in_dir [100] [0x6C, 0xC3, 0xA0] [0x6C, 0xC3, 0x83],
         .stat [100, 47, 0x6C, 0xC3, 0x83],
         .rename [100, 47, 0x6C, 0xC3, 0xA0] [100, 47, 0x6C, 0xC3, 0x83]] ∧
    (walker { Config.fix with fix_ws_flag := 1 } iconv_latin1 [100, 47, 0x6C, 0xC3, 0xA0] .FTW_F
      (State.init (one_file_fs [0x6C, 0xC3, 0xA0]))).2.classes = (0, 0, 1, 0) ∧
    (walker { Config.fix with fix_ws_flag := 1 } iconv_latin1 [100, 47, 0x6C, 0xC3, 0xA0] .FTW_F
      (State.init (one_file_fs [0x6C, 0xC3, 0xA0]))).2.fs
      = one_file_fs [0x6C, 0xC3, 0x83] := by
  decide

/-- The test `iconv(...) < 0` in `conv` is made on an unsigned value: whatever
the converter returns, `conv` returns a string. -/
theorem conv_some (iconv : List Nat → Nat → IconvResult) (inp : List Nat) :
    conv iconv inp = some (cstr (iconv (inp.take (strlen inp)) 10240).out) := by
  unfold conv
  simp only
  rw [if_neg (by omega)]

/-- Claim C17, evaluated where the code departs from it: on a descriptor for
US-ASCII the call `iconv` fails on the name 63 E9 with the error value
`(size_t)-1`, yet `conv` returns the string converted so far, 63, and `walker`
renames the entry to it and returns 0; `conv` never returns `NULL`. -/
theorem conv_misses_failure :
    (iconv_ascii [0x63, 0xE9] 10240).ret = 2 ^ 64 - 1 ∧
    conv iconv_ascii [0x63, 0xE9] = some [0x63] ∧
    (walker { Config.fix with errexit_flag := 1 } iconv_ascii [100, 47, 0x63, 0xE9] .FTW_F
      (State.init (one_file_fs [0x63, 0xE9]))).1 = 0 ∧
    Call.rename [100, 47, 0x63, 0xE9] [100, 47, 0x63] ∈
      (walker { Config.fix with errexit_flag := 1 } iconv_ascii [100, 47, 0x63, 0xE9] .FTW_F
        (State.init (one_file_fs [0x63, 0xE9]))).2.calls ∧
    (walker { Config.fix with errexit_flag := 1 } iconv_ascii [100, 47, 0x63, 0xE9] .FTW_F
      (State.init (one_file_fs [0x63, 0xE9]))).2.fs = one_file_fs [0x63] ∧
    (∀ (iconv : List Nat → Nat → IconvResult) (inp : List Nat), conv iconv inp ≠ none) := by
  refine ⟨by decide, by decide, by decide, by decide, by decide, ?_⟩
  intro iconv inp
  rw [conv_some]
  exact Option.some_ne_none _

/-- Claim C19, evaluated where the code departs from it: the name made of the
single byte 0x01 is rejected by the three classifiers, `fix_invalid` drops its
only byte, and `walker` reaches its label `Rename` with the empty name: in
report mode the entry is counted as a match, in fix mode `rename_in_dir` is
called with an empty new name. -/
theorem walker_proposes_empty_name :
    fix_invalid [0x01] = [] ∧
    rename_target Config.plain iconv_latin1 [0x01] = some [] ∧
    (walker Config.plain iconv_latin1 [100, 47, 0x01] .FTW_F
      (State.init (one_file_fs [0x01]))).2.nm = 1 ∧
    Call.rename_in_dir [100] [0x01] [] ∈
      (walker Config.fix iconv_latin1 [100, 47, 0x01] .FTW_F
        (State.init (one_file_fs [0x01]))).2.calls := by
  decide

/-! ## The long forms of the validator's lead-byte table -/

theorem unit_length (u : List Nat) (hu : utf8Unit u = true) : 1 ≤ u.length ∧ u.length ≤ 4 := by
  rcases u with _ | ⟨a, _ | ⟨c1, _ | ⟨c2, _ | ⟨c3, _ | ⟨c4, t⟩⟩⟩⟩⟩ <;>
    simp [utf8Unit] at hu ⊢

theorem mask_fc_illegal (b : Nat) (h : b &&& 0xFE = 0xFC ∨ b &&& 0xFC = 0xF8) : b ≥ 0xF5 := by
  by_cases hb : b < 256
  · obtain ⟨h1, h2, -⟩ := byte_masks b hb
    rcases h with h | h
    · have := h1.mp h; omega
    · have := h2.mp h; omega
  · omega

/-- Claim C18, refuted as stated: no byte string that holds a lead byte 0xFC
or 0xFD followed by five bytes in 0x80-0xBF is accepted by `is_utf_8`. -/
theorem six_byte_form_rejected :
    ¬ ∃ s : List Nat, NulFree s ∧
      (∃ p a cs r, s = p ++ a :: cs ++ r ∧ (a = 0xFC ∨ a = 0xFD) ∧ cs.length = 5 ∧
        ∀ c ∈ cs, isCont c = true) ∧
      is_utf_8 s = 1 := by
  rintro ⟨s, hs, ⟨p, a, cs, r, rfl, ha, -, -⟩, hacc⟩
  have h0 : is_utf_8 (p ++ a :: cs ++ r) = 0 :=
    loop_illegal _ 0 0 hs ⟨a, by simp, by omega⟩ (Or.inl rfl)
  rw [h0] at hacc
  exact absurd hacc (by decide)

/-- Claim C18, amended: the branches of the lead-byte table that set `len = 5`
and `len = 4` are never taken, because a byte that meets their mask is at least
0xF5 and the test for illegal bytes comes first and returns 0; every byte
string holding a byte from 0xF5 on, among them every 6-byte form, is rejected,
and an accepted string is made of units of at most four bytes. -/
theorem long_forms_rejected (s : List Nat) (hs : NulFree s) :
    (∀ (b : Nat) (bs : List Nat) (state len : Int),
      (b &&& 0xFE = 0xFC ∨ b &&& 0xFC = 0xF8) → is_utf_8_loop (b :: bs) state len = 0) ∧
    ((∃ b ∈ s, b ≥ 0xF5) → is_utf_8 s = 0) ∧
    (is_utf_8 s = 1 → ∃ us : List (List Nat), s = us.flatten ∧
      ∀ u ∈ us, utf8Unit u = true ∧ u.length ≤ 4) ∧
    is_utf_8 [0xFC, 0x80, 0x80, 0x80, 0x80, 0x80] = 0 ∧
    is_utf_8 [0xFD, 0xBF, 0xBF, 0xBF, 0xBF, 0xBF] = 0 := by
  refine ⟨?_, ?_, ?_, by decide, by decide⟩
  · intro b bs state len hm
    have hb := mask_fc_illegal b hm
    simp only [is_utf_8_loop]
    rw [if_neg (by omega), if_pos (Or.inr (Or.inr hb))]
  · rintro ⟨b, hb, hge⟩
    exact loop_illegal s 0 0 hs ⟨b, hb, Or.inr (Or.inr hge)⟩ (Or.inl rfl)
  · intro h
    obtain ⟨us, hu, rfl⟩ := units_of_accept s.length s le_rfl hs h
    exact ⟨us, rfl, fun u hmem => ⟨hu u hmem, (unit_length u (hu u hmem)).2⟩⟩

theorem long_forms_rejected_witness :
    NulFree [0x61, 0xFC, 0x80, 0x80, 0x80, 0x80, 0x80] ∧
    (∃ b ∈ [0x61, 0xFC, 0x80, 0x80, 0x80, 0x80, 0x80], b ≥ 0xF5) ∧
    is_utf_8 [0x61, 0xFC, 0x80, 0x80, 0x80, 0x80, 0x80] = 0 :=
  ⟨by decide, by decide,
    (long_forms_rejected [0x61, 0xFC, 0x80, 0x80, 0x80, 0x80, 0x80] (by decide)).2.1
      (by decide)⟩

/-! ## The label `Rename` -/

@[simp] theorem nm_rename_in_dir (cfg : Config) (dir old new : List Nat) (st : State) :
    (rename_in_dir cfg dir old new st).2.nm = st.nm := by
  unfold rename_in_dir
  simp only
  split
  · rfl
  · split_ifs
    · split <;> rfl
    · rfl

/-- Arriving at the label `Rename` counts one match. -/
theorem nm_walker_rename (cfg : Config) (path rest last np : List Nat) (isof : Int)
    (st : State) : (walker_rename cfg path rest last np isof st).2.nm = st.nm + 1 := by
  unfold walker_rename
  simp only
  split_ifs <;> simp [State.diag, State.log, State.inc_fixed, State.call, State.inc_nm]

theorem calls_rename_in_dir (cfg : Config) (dir old new : List Nat) (st : State) :
    ∃ tail, (rename_in_dir cfg dir old new st).2.calls = st.calls ++ tail ∧
      ∀ d o n, Call.rename_in_dir d o n ∉ tail := by
  unfold rename_in_dir
  simp only
  split
  · exact ⟨[_], rfl, by simp⟩
  · split_ifs
    · split
      · exact ⟨[.stat (join_path dir new), .rename (join_path dir old) (join_path dir new)],
          by simp [State.call, State.set_fs, State.set_errno], by simp⟩
      · exact ⟨[.stat (join_path dir new), .rename (join_path dir old) (join_path dir new)],
          by simp [State.call, State.set_fs, State.set_errno], by simp⟩
    · exact ⟨[_], rfl, by simp⟩

/-- At the label `Rename`, `rename_in_dir` is called in fix mode with the names
`last` and `np`, and not called in report mode. -/
theorem calls_walker_rename (cfg : Config) (path rest last np : List Nat) (isof : Int)
    (st : State) (d o n : List Nat) :
    Call.rename_in_dir d o n ∈ (walker_rename cfg path rest last np isof st).2.calls ↔
      Call.rename_in_dir d o n ∈ st.calls ∨
        (cfg.fix_flag ≠ 0 ∧ d = rest ∧ o = last ∧ n = np) := by
  obtain ⟨tail, htail, hno⟩ := calls_rename_in_dir cfg rest last np
    (st.inc_nm.call (.rename_in_dir rest last np))
  have hbase : (st.inc_nm.call (.rename_in_dir rest last np)).calls
      = st.calls ++ [.rename_in_dir rest last np] := rfl
  unfold walker_rename
  simp only
  by_cases hf : cfg.fix_flag ≠ 0
  · have key : Call.rename_in_dir d o n ∈
        (rename_in_dir cfg rest last np (st.inc_nm.call (.rename_in_dir rest last np))).2.calls ↔
        Call.rename_in_dir d o n ∈ st.calls ∨ (d = rest ∧ o = last ∧ n = np) := by
      rw [htail, hbase]
      simp only [List.mem_append, List.mem_singleton, Call.rename_in_dir.injEq]
      constructor
      · rintro ((h | h) | h)
        · exact Or.inl h
        · exact Or.inr h
        · exact absurd h (hno d o n)
      · rintro (h | h)
        · exact Or.inl (Or.inl h)
        · exact Or.inl (Or.inr h)
    simp only [if_pos hf]
    split_ifs <;> simp only [State.diag, State.log, State.inc_fixed, key, hf, ne_eq,
      not_false_eq_true, true_and]
  · simp only [if_neg hf]
    simp [State.log, State.inc_nm, hf]

@[simp] theorem nm_log_tag (cfg : Config) (level : Int) (p t : List Nat) (st : State) :
    (log_tag cfg level p t st).nm = st.nm := by
  unfold log_tag
  split_ifs <;> rfl

@[simp] theorem calls_log_tag (cfg : Config) (level : Int) (p t : List Nat) (st : State) :
    (log_tag cfg level p t st).calls = st.calls := by
  unfold log_tag
  split_ifs <;> rfl

@[simp] theorem nm_call (st : State) (c : Call) : (st.call c).nm = st.nm := rfl

@[simp] theorem nm_diag (st : State) (d : Diag) : (st.diag d).nm = st.nm := rfl

@[simp] theorem nm_inc_ascii (st : State) : st.inc_ascii.nm = st.nm := rfl

@[simp] theorem nm_inc_utf_8 (st : State) : st.inc_utf_8.nm = st.nm := rfl

@[simp] theorem nm_inc_iso8859_1 (st : State) : st.inc_iso8859_1.nm = st.nm := rfl

@[simp] theorem nm_inc_other (st : State) : st.inc_other.nm = st.nm := rfl

@[simp] theorem calls_call (st : State) (c : Call) : (st.call c).calls = st.calls ++ [c] := rfl

@[simp] theorem calls_diag (st : State) (d : Diag) : (st.diag d).calls = st.calls := rfl

@[simp] theorem calls_inc_ascii (st : State) : st.inc_ascii.calls = st.calls := rfl

@[simp] theorem calls_inc_utf_8 (st : State) : st.inc_utf_8.calls = st.calls := rfl

@[simp] theorem calls_inc_iso8859_1 (st : State) : st.inc_iso8859_1.calls = st.calls := rfl

@[simp] theorem calls_inc_other (st : State) : st.inc_other.calls = st.calls := rfl

/-- The counter `nm` goes up by one exactly when `walker` reaches `Rename`, and
`rename_in_dir` is called exactly then, in fix mode, with the old name `last`
and the new name given by `rename_target`. -/
theorem walker_name_link (cfg : Config) (iconv : List Nat → Nat → IconvResult)
    (path rest last : List Nat) (st : State) :
    (rename_target cfg iconv last = none →
      (walker_name cfg iconv path rest last st).2.nm = st.nm) ∧
    (∀ np, rename_target cfg iconv last = some np →
      (walker_name cfg iconv path rest last st).2.nm = st.nm + 1) ∧
    ∀ d o n, Call.rename_in_dir d o n ∈ (walker_name cfg iconv path rest last st).2.calls ↔
      Call.rename_in_dir d o n ∈ st.calls ∨
        (cfg.fix_flag ≠ 0 ∧ d = rest ∧ o = last ∧ rename_target cfg iconv last = some n) := by
  have hst0 : (if cfg.fix_ws_flag ≠ 0 then st.call (.fix_whitespace last) else st).nm
      = st.nm := by split_ifs <;> rfl
  have hst1 : ∀ d o n, Call.rename_in_dir d o n ∈
      (if cfg.fix_ws_flag ≠ 0 then st.call (.fix_whitespace last) else st).calls ↔
      Call.rename_in_dir d o n ∈ st.calls := by
    intro d o n
    split_ifs <;> simp
  generalize hst : (if cfg.fix_ws_flag ≠ 0 then st.call (.fix_whitespace last) else st) = st0
    at hst0 hst1
  have hw : walker_name cfg iconv path rest last st =
      (if cfg.fix_ws_flag ≠ 0 ∧ (repaired cfg last).headD 0 = 0 then
        (cfg.errexit_flag, log_tag cfg 1 path [32, 91, 69, 109, 112, 116, 121, 93, 10] st0)
      else if is_ascii (repaired cfg last) ≠ 0 then
        (if (decide (cfg.fix_ws_flag ≠ 0 ∧ strcmp (repaired cfg last) last ≠ 0)) = false then
          (0, log_tag cfg 2 path [32, 91, 65, 83, 67, 73, 73, 93, 10] st0.inc_ascii)
        else walker_rename cfg path rest last (repaired cfg last) 0
          (log_tag cfg 2 path [32, 91, 65, 83, 67, 73, 73, 93, 10] st0.inc_ascii))
      else if is_utf_8 (repaired cfg last) ≠ 0 then
        (if (decide (cfg.fix_ws_flag ≠ 0 ∧ strcmp (repaired cfg last) last ≠ 0)) = false then
          (0, log_tag cfg 2 path [32, 91, 85, 84, 70, 45, 56, 93, 10] st0.inc_utf_8)
        else walker_rename cfg path rest last (repaired cfg last) 0
          (log_tag cfg 2 path [32, 91, 85, 84, 70, 45, 56, 93, 10] st0.inc_utf_8))
      else if is_iso8859_1 (repaired cfg last) ≠ 0 then
        (match conv iconv (repaired cfg last) with
          | none => (cfg.errexit_flag,
              (st0.inc_iso8859_1.call (.conv (repaired cfg last))).diag
                (.unable_to_convert path (repaired cfg last)))
          | some np => walker_rename cfg path rest last np (is_iso8859_1 (repaired cfg last))
              (st0.inc_iso8859_1.call (.conv (repaired cfg last))))
      else if strcmp (fix_invalid (repaired cfg last)) (repaired cfg last) = 0 then
        (cfg.errexit_flag,
          log_tag cfg 1 path [32, 91, 85, 110, 102, 105, 120, 97, 98, 108, 101, 93, 10]
            (st0.call (.fix_invalid (repaired cfg last))))
      else
        (match conv iconv (fix_invalid (repaired cfg last)) with
          | none => (cfg.errexit_flag,
              (((st0.call (.fix_invalid (repaired cfg last))).inc_other.call
                (.conv (fix_invalid (repaired cfg last)))).diag
                (.unable_to_convert path (fix_invalid (repaired cfg last)))))
          | some np => walker_rename cfg path rest last np 0
              ((st0.call (.fix_invalid (repaired cfg last))).inc_other.call
                (.conv (fix_invalid (repaired cfg last)))))) := by
    rw [← hst]
    rfl
  have ht : rename_target cfg iconv last =
      (if cfg.fix_ws_flag ≠ 0 ∧ (repaired cfg last).headD 0 = 0 then none
      else if is_ascii (repaired cfg last) ≠ 0 then
        (if (decide (cfg.fix_ws_flag ≠ 0 ∧ strcmp (repaired cfg last) last ≠ 0)) = false then none
          else some (repaired cfg last))
      else if is_utf_8 (repaired cfg last) ≠ 0 then
        (if (decide (cfg.fix_ws_flag ≠ 0 ∧ strcmp (repaired cfg last) last ≠ 0)) = false then none
          else some (repaired cfg last))
      else if is_iso8859_1 (repaired cfg last) ≠ 0 then conv iconv (repaired cfg last)
      else if strcmp (fix_invalid (repaired cfg last)) (repaired cfg last) = 0 then none
      else conv iconv (fix_invalid (repaired cfg last))) := rfl
  rw [hw, ht]
  clear hw ht hst
  generalize repaired cfg last = t
  split_ifs
  all_goals first
    | (refine ⟨?_, ?_, fun d o n => ?_⟩ <;>
        simp [nm_walker_rename, calls_walker_rename, hst0, hst1] <;>
        first
          | done
          | (constructor <;> rintro (h | ⟨h1, h2, h3, h4⟩) <;>
              first | exact Or.inl h | exact Or.inr ⟨h1, h2, h3, h4.symm⟩))
    | (cases hc : conv iconv t <;> refine ⟨?_, ?_, fun d o n => ?_⟩ <;>
        simp [nm_walker_rename, calls_walker_rename, hst0, hst1] <;>
        first
          | done
          | (constructor <;> rintro (h | ⟨h1, h2, h3, h4⟩) <;>
              first | exact Or.inl h | exact Or.inr ⟨h1, h2, h3, h4.symm⟩))
    | (cases hc : conv iconv (fix_invalid t) <;> refine ⟨?_, ?_, fun d o n => ?_⟩ <;>
        simp [nm_walker_rename, calls_walker_rename, hst0, hst1] <;>
        first
          | done
          | (constructor <;> rintro (h | ⟨h1, h2, h3, h4⟩) <;>
              first | exact Or.inl h | exact Or.inr ⟨h1, h2, h3, h4.symm⟩))

/-! ## What reaches the label `Rename` -/

theorem fixByte_mem (b : Nat) (h0 : 0 < b) (hb : b < 256) : ∀ z ∈ fixByte b,
    z = 9 ∨ z = 10 ∨ z = 13 ∨ (0x20 ≤ z ∧ z ≤ 0x7E) ∨ (0xA0 ≤ z ∧ z ≤ 0xFF) := by
  intro z hz
  unfold fixByte at hz
  split_ifs at hz <;> simp at hz <;> omega

theorem fix_invalid_mem (u : List Nat) (hu : NulFree u) : ∀ z ∈ fix_invalid u,
    z = 9 ∨ z = 10 ∨ z = 13 ∨ (0x20 ≤ z ∧ z ≤ 0x7E) ∨ (0xA0 ≤ z ∧ z ≤ 0xFF) := by
  induction u with
  | nil => intro z hz; simp [fix_invalid] at hz
  | cons b bs ih =>
    obtain ⟨⟨h0, hb⟩, hbs⟩ := nulFree_cons hu
    intro z hz
    rw [fix_invalid_cons _ _ h0] at hz
    rcases List.mem_append.mp hz with h | h
    · exact fixByte_mem b h0 hb z h
    · exact ih hbs z h

theorem fix_invalid_length (u : List Nat) (hu : NulFree u) :
    (fix_invalid u).length ≤ u.length := by
  induction u with
  | nil => simp [fix_invalid]
  | cons b bs ih =>
    obtain ⟨⟨h0, -⟩, hbs⟩ := nulFree_cons hu
    rw [fix_invalid_cons _ _ h0]
    have := fixByte_length b
    have := ih hbs
    simp only [List.length_append, List.length_cons]
    omega

theorem fix_whitespace_length (flag : Int) (s : List Nat) (hs : NulFree s) :
    (fix_whitespace flag s).length ≤ s.length := by
  rw [fix_whitespace_eq flag s hs, List.length_map]
  exact le_trans (List.rdropWhile_prefix _ _).length_le (List.dropWhile_suffix _).length_le

theorem nulFree_repaired (cfg : Config) (last : List Nat) (hl : NulFree last) :
    NulFree (repaired cfg last) := by
  unfold repaired
  split_ifs
  · exact nulFree_fix_whitespace _ _ hl
  · exact hl

theorem repaired_length (cfg : Config) (last : List Nat) (hl : NulFree last) :
    (repaired cfg last).length ≤ last.length := by
  unfold repaired
  split_ifs
  · exact fix_whitespace_length _ _ hl
  · exact le_rfl

theorem mem_latin1 (x : List Nat) (hx : NulFree x) : ∀ z ∈ latin1_to_utf8 x,
    (z ∈ x ∧ z < 0x80) ∨ 0x80 ≤ z := by
  induction x with
  | nil => intro z hz; simp [latin1_to_utf8] at hz
  | cons b bs ih =>
    obtain ⟨⟨h0, hb⟩, hbs⟩ := nulFree_cons hx
    intro z hz
    simp only [latin1_to_utf8] at hz
    split_ifs at hz with hlt
    · rcases List.mem_cons.mp hz with rfl | h
      · exact Or.inl ⟨by simp, hlt⟩
      · rcases ih hbs z h with ⟨h1, h2⟩ | h1
        · exact Or.inl ⟨by simp [h1], h2⟩
        · exact Or.inr h1
    · obtain ⟨e1, e2⟩ := latin1_bytes b hb (by omega)
      rw [e1, e2] at hz
      rcases List.mem_cons.mp hz with rfl | h
      · right; split_ifs <;> omega
      · rcases List.mem_cons.mp h with rfl | h
        · right; omega
        · rcases ih hbs z h with ⟨h1, h2⟩ | h1
          · exact Or.inl ⟨by simp [h1], h2⟩
          · exact Or.inr h1

/-- The ways in which `walker` reaches `Rename` when the converter is the
Latin-1 to UTF-8 map: a whitespace-repaired ASCII or UTF-8 name, the image of
an ISO8859-1 name, or the image of a name changed by `fix_invalid`. -/
theorem rename_target_cases (cfg : Config) (iconv : List Nat → Nat → IconvResult)
    (last np : List Nat) (hl : NulFree last)
    (hic : ∀ x, NulFree x → x.length ≤ last.length → conv iconv x = some (latin1_to_utf8 x))
    (h : rename_target cfg iconv last = some np) :
    (cfg.fix_ws_flag ≠ 0 ∧ np = repaired cfg last ∧ repaired cfg last ≠ last ∧
      (is_ascii (repaired cfg last) = 1 ∨ is_utf_8 (repaired cfg last) = 1)) ∨
    (is_ascii (repaired cfg last) = 0 ∧ is_utf_8 (repaired cfg last) = 0 ∧
      is_iso8859_1 (repaired cfg last) = 1 ∧ np = latin1_to_utf8 (repaired cfg last)) ∨
    (is_ascii (repaired cfg last) = 0 ∧ is_utf_8 (repaired cfg last) = 0 ∧
      is_iso8859_1 (repaired cfg last) = 0 ∧
      fix_invalid (repaired cfg last) ≠ repaired cfg last ∧
      np = latin1_to_utf8 (fix_invalid (repaired cfg last))) := by
  have ht : rename_target cfg iconv last =
      (if cfg.fix_ws_flag ≠ 0 ∧ (repaired cfg last).headD 0 = 0 then none
      else if is_ascii (repaired cfg last) ≠ 0 then
        (if (decide (cfg.fix_ws_flag ≠ 0 ∧ strcmp (repaired cfg last) last ≠ 0)) = false then none
          else some (repaired cfg last))
      else if is_utf_8 (repaired cfg last) ≠ 0 then
        (if (decide (cfg.fix_ws_flag ≠ 0 ∧ strcmp (repaired cfg last) last ≠ 0)) = false then none
          else some (repaired cfg last))
      else if is_iso8859_1 (repaired cfg last) ≠ 0 then conv iconv (repaired cfg last)
      else if strcmp (fix_invalid (repaired cfg last)) (repaired cfg last) = 0 then none
      else conv iconv (fix_invalid (repaired cfg last))) := rfl
  have hnt := nulFree_repaired cfg last hl
  have hlt := repaired_length cfg last hl
  have hcmp : ∀ a, NulFree a → (strcmp a (repaired cfg last) ≠ 0 ↔ a ≠ repaired cfg last) :=
    fun a ha => not_congr (strcmp_eq_zero_iff a _ ha hnt)
  have hcmp2 : strcmp (repaired cfg last) last ≠ 0 ↔ repaired cfg last ≠ last :=
    not_congr (strcmp_eq_zero_iff _ _ hnt hl)
  rw [ht] at h
  clear ht
  generalize repaired cfg last = t at *
  split_ifs at h with h1 h2 h3 h4 h5 h6 h7
  · simp only [decide_eq_false_iff_not, not_not] at h3
    simp only [Option.some.injEq] at h
    refine Or.inl ⟨h3.1, h.symm, hcmp2.mp h3.2, Or.inl ?_⟩
    rcases is_ascii_01 t with h0 | h0
    · exact absurd h0 h2
    · exact h0
  · simp only [decide_eq_false_iff_not, not_not] at h5
    simp only [Option.some.injEq] at h
    refine Or.inl ⟨h5.1, h.symm, hcmp2.mp h5.2, Or.inr ?_⟩
    rcases is_utf_8_01 t with h0 | h0
    · exact absurd h0 h4
    · exact h0
  · rw [hic t hnt hlt] at h
    simp only [Option.some.injEq] at h
    refine Or.inr (Or.inl ⟨not_not.mp h2, not_not.mp h4, ?_, h.symm⟩)
    rcases is_iso8859_1_01 t with h0 | h0
    · exact absurd h0 h6
    · exact h0
  · rw [hic _ (nulFree_fix_invalid t hnt) (le_trans (fix_invalid_length t hnt) hlt)] at h
    simp only [Option.some.injEq] at h
    exact Or.inr (Or.inr ⟨not_not.mp h2, not_not.mp h4, not_not.mp h6,
      (hcmp _ (nulFree_fix_invalid t hnt)).mp h7, h.symm⟩)

theorem walker_link (cfg : Config) (iconv : List Nat → Nat → IconvResult)
    (path : List Nat) (flags : FtwFlag) (st : State) (hk : flags.counted = true) :
    (rename_target cfg iconv (path_last (cstr path)) = none →
      (walker cfg iconv path flags st).2.nm = st.nm) ∧
    (∀ np, rename_target cfg iconv (path_last (cstr path)) = some np →
      (walker cfg iconv path flags st).2.nm = st.nm + 1) ∧
    ∀ d o n, Call.rename_in_dir d o n ∈ (walker cfg iconv path flags st).2.calls ↔
      Call.rename_in_dir d o n ∈ st.calls ∨
        (cfg.fix_flag ≠ 0 ∧ d = path_rest (cstr path) ∧ o = path_last (cstr path) ∧
          rename_target cfg iconv (path_last (cstr path)) = some n) := by
  obtain ⟨st1, hck, -, h2, -, -, h5, -, -⟩ := count_kind_counted flags st hk
  have hw : walker cfg iconv path flags st =
      walker_name cfg iconv (cstr path) (path_rest (cstr path)) (path_last (cstr path)) st1 := by
    unfold walker; rw [hck]
  obtain ⟨l1, l2, l3⟩ := walker_name_link cfg iconv (cstr path) (path_rest (cstr path))
    (path_last (cstr path)) st1
  rw [hw]
  refine ⟨fun h => (l1 h).trans h2, fun np h => (l2 np h).trans (by rw [h2]), fun d o n => ?_⟩
  rw [l3 d o n, h5]

theorem copy_byte_cases (flag : Int) (z : Nat) :
    copy_byte flag z = z ∨ (copy_byte flag z = 32 ∧ is_whitespace flag z = true) := by
  unfold copy_byte
  split_ifs with h
  · exact Or.inr ⟨rfl, h.2⟩
  · exact Or.inl rfl

theorem copy_byte_of_not_ws (flag : Int) (z : Nat) (h : is_whitespace flag z = false) :
    copy_byte flag z = z := by
  unfold copy_byte
  rw [if_neg]
  rintro ⟨-, h2⟩
  rw [h] at h2
  exact absurd h2 (by decide)

theorem not_ws_of_high (flag : Int) (z : Nat) (h : z ≠ 32 ∧ z ≠ 9 ∧ z ≠ 0xA0 ∧ z ≠ 10 ∧ z ≠ 13) :
    is_whitespace flag z = false := by
  simp [is_whitespace, h.1, h.2.1, h.2.2.1, h.2.2.2.1, h.2.2.2.2]

theorem fix_whitespace_eq_copy (flag : Int) (s : List Nat) (hs : NulFree s) :
    fix_whitespace flag s =
      ((s.dropWhile (is_whitespace flag)).rdropWhile (is_whitespace flag)).map
        (copy_byte flag) :=
  fix_whitespace_eq flag s hs

theorem latin1_cons_low (c : Nat) (x : List Nat) (h : c < 0x80) :
    latin1_to_utf8 (c :: x) = c :: latin1_to_utf8 x := by
  simp [latin1_to_utf8, h]

theorem fix_invalid_3F (t : List Nat) : fix_invalid (0x3F :: t) = 0x3F :: fix_invalid t := by
  rw [fix_invalid_cons _ _ (by decide)]
  rfl

theorem fix_invalid_83 (t : List Nat) : fix_invalid (0x83 :: t) = 0x3F :: fix_invalid t := by
  rw [fix_invalid_cons _ _ (by decide)]
  rfl

theorem stuck_3F (flag : Int) (t : List Nat) :
    t = (List.take t.length (0x3F :: latin1_to_utf8 (fix_invalid t))).map (copy_byte flag) →
    (∀ b ∈ List.drop t.length (0x3F :: latin1_to_utf8 (fix_invalid t)),
      is_whitespace flag b = true) → False := by
  induction t with
  | nil =>
    intro _ hd
    have := hd 0x3F (by simp)
    rw [not_ws_of_high flag 0x3F (by decide)] at this
    exact absurd this (by decide)
  | cons b t ih =>
    intro he hd
    simp only [List.length_cons, List.take_succ_cons, List.map_cons, List.cons.injEq] at he
    obtain ⟨hb, he⟩ := he
    rw [copy_byte_of_not_ws flag 0x3F (not_ws_of_high flag 0x3F (by decide))] at hb
    subst hb
    simp only [List.length_cons, List.drop_succ_cons] at hd
    rw [fix_invalid_3F, latin1_cons_low _ _ (by decide)] at he hd
    exact ih he hd

theorem stuck_83 (flag : Int) (t : List Nat) :
    t = (List.take t.length (0x83 :: latin1_to_utf8 (fix_invalid t))).map (copy_byte flag) →
    (∀ b ∈ List.drop t.length (0x83 :: latin1_to_utf8 (fix_invalid t)),
      is_whitespace flag b = true) → False := by
  cases t with
  | nil =>
    intro _ hd
    have := hd 0x83 (by simp)
    rw [not_ws_of_high flag 0x83 (by decide)] at this
    exact absurd this (by decide)
  | cons b t =>
    intro he hd
    simp only [List.length_cons, List.take_succ_cons, List.map_cons, List.cons.injEq] at he
    obtain ⟨hb, he⟩ := he
    rw [copy_byte_of_not_ws flag 0x83 (not_ws_of_high flag 0x83 (by decide))] at hb
    subst hb
    simp only [List.length_cons, List.drop_succ_cons] at hd
    rw [fix_invalid_83, latin1_cons_low _ _ (by decide)] at he hd
    exact stuck_3F flag t he hd

theorem latin1_fix_clean (u : List Nat) (hu : NulFree u) : ∀ z ∈ latin1_to_utf8 (fix_invalid u),
    z = 9 ∨ z = 10 ∨ z = 13 ∨ 0x20 ≤ z := by
  intro z hz
  rcases mem_latin1 _ (nulFree_fix_invalid u hu) z hz with ⟨h1, -⟩ | h1
  · have := fix_invalid_mem u hu z h1
    omega
  · omega

theorem copy_clean (flag : Int) (z : Nat) (hz : z = 9 ∨ z = 10 ∨ z = 13 ∨ 0x20 ≤ z) :
    copy_byte flag z = 9 ∨ copy_byte flag z = 10 ∨ copy_byte flag z = 13 ∨
      0x20 ≤ copy_byte flag z := by
  rcases copy_byte_cases flag z with h | ⟨h, -⟩
  · rw [h]; exact hz
  · rw [h]; omega

/-- The three shapes of the image of one byte under `fix_invalid`. -/
theorem fixByte_cases (b : Nat) (h0 : 0 < b) (hb : b < 256) :
    (fixByte b = [] ∧ b < 0x20 ∧ b ≠ 9 ∧ b ≠ 10 ∧ b ≠ 13) ∨
    (∃ c, fixByte b = [c] ∧ c < 0x80 ∧ (c = b ∨ c = 0x27 ∨ c = 0x3F)) ∨
    (∃ c, fixByte b = [c] ∧ 0x80 ≤ c ∧ c < 256 ∧ (c = b ∨ b = 0x8E)) := by
  unfold fixByte
  split_ifs with h1 h2 h3 h4 h5
  · exact Or.inr (Or.inr ⟨_, rfl, by omega, by omega, Or.inr h1⟩)
  · exact Or.inr (Or.inl ⟨_, rfl, by omega, Or.inr (Or.inl rfl)⟩)
  · exact Or.inr (Or.inl ⟨_, rfl, by omega, Or.inl rfl⟩)
  · exact Or.inl ⟨rfl, by omega, by omega, by omega, by omega⟩
  · exact Or.inr (Or.inl ⟨_, rfl, by omega, Or.inr (Or.inr rfl)⟩)
  · by_cases hlt : b < 0x80
    · exact Or.inr (Or.inl ⟨_, rfl, hlt, Or.inl rfl⟩)
    · exact Or.inr (Or.inr ⟨_, rfl, by omega, hb, Or.inl rfl⟩)

/-- A name that is cut out of, and copied from, its own repaired and transcoded
form is left alone by `fix_invalid` and holds no byte from `0x80` on. -/
theorem self_image_core (flag : Int) (t : List Nat) : NulFree t →
    t = (List.take t.length (latin1_to_utf8 (fix_invalid t))).map (copy_byte flag) →
    (∀ b ∈ List.drop t.length (latin1_to_utf8 (fix_invalid t)), is_whitespace flag b = true) →
    fix_invalid t = t ∧ ∀ b ∈ t, b < 0x80 := by
  induction t with
  | nil => intro _ _ _; exact ⟨rfl, by simp⟩
  | cons b t ih =>
    intro hn he hd
    obtain ⟨⟨h0, hb⟩, ht⟩ := nulFree_cons hn
    rw [fix_invalid_cons b t h0] at he hd ⊢
    rcases fixByte_cases b h0 hb with ⟨hf, hdrop⟩ | ⟨c, hf, hc, hcb⟩ | ⟨c, hf, hc, hc2, hcb⟩
    · -- a dropped byte cannot come back out of the converter
      exfalso
      rw [hf, List.nil_append] at he
      cases hL : latin1_to_utf8 (fix_invalid t) with
      | nil => rw [hL] at he; simp at he
      | cons z L =>
        rw [hL] at he
        simp only [List.length_cons, List.take_succ_cons, List.map_cons, List.cons.injEq] at he
        have hz := copy_clean flag z (latin1_fix_clean t ht z (by rw [hL]; simp))
        rw [← he.1] at hz
        omega
    · rw [hf, List.singleton_append, latin1_cons_low c _ hc] at he hd
      simp only [List.length_cons, List.take_succ_cons, List.map_cons, List.cons.injEq,
        List.drop_succ_cons] at he hd
      obtain ⟨hbc, he⟩ := he
      obtain ⟨ih1, ih2⟩ := ih ht he hd
      have hcb2 : c = b := by
        rcases hcb with h | h | h
        · exact h
        · subst h
          rw [copy_byte_of_not_ws flag 0x27 (not_ws_of_high flag 0x27 (by decide))] at hbc
          exact hbc.symm
        · subst h
          rw [copy_byte_of_not_ws flag 0x3F (not_ws_of_high flag 0x3F (by decide))] at hbc
          exact hbc.symm
      subst hcb2
      rw [hf, ih1]
      refine ⟨rfl, ?_⟩
      intro x hx
      rcases List.mem_cons.mp hx with rfl | hx
      · exact hc
      · exact ih2 x hx
    · exfalso
      obtain ⟨e1, e2⟩ := latin1_bytes c hc2 hc
      have hL : latin1_to_utf8 (c :: fix_invalid t)
          = (if c < 0xC0 then 0xC2 else 0xC3) :: (0x80 + c % 64)
              :: latin1_to_utf8 (fix_invalid t) := by
        simp only [latin1_to_utf8, if_neg (show ¬ c < 0x80 by omega), e1, e2]
      rw [hf, List.singleton_append, hL] at he hd
      simp only [List.length_cons, List.take_succ_cons, List.map_cons, List.cons.injEq,
        List.drop_succ_cons] at he hd
      obtain ⟨hbl, he⟩ := he
      have hlead : copy_byte flag (if c < 0xC0 then 0xC2 else 0xC3)
          = (if c < 0xC0 then 0xC2 else 0xC3) := by
        apply copy_byte_of_not_ws
        apply not_ws_of_high
        split_ifs <;> decide
      rw [hlead] at hbl
      have hbC3 : b = 0xC3 ∧ c = 0xC3 := by
        rcases hcb with h | h
        · subst h
          split_ifs at hbl <;> omega
        · subst h
          split_ifs at hbl <;> omega
      obtain ⟨rfl, rfl⟩ := hbC3
      exact stuck_83 flag t he hd

theorem fix_invalid_iso (t : List Nat) (ht : NulFree t) (hi : is_iso8859_1 t = 1) :
    fix_invalid t = t := by
  induction t with
  | nil => rfl
  | cons b t ih =>
    obtain ⟨⟨h0, -⟩, hn⟩ := nulFree_cons ht
    have hall := (is_iso8859_1_one_iff _ ht).mp hi
    have hb := hall b (by simp)
    have hi2 : is_iso8859_1 t = 1 :=
      (is_iso8859_1_one_iff _ hn).mpr (fun x hx => hall x (by simp [hx]))
    rw [fix_invalid_cons b t h0, ih hn hi2]
    have : fixByte b = [b] := by
      unfold fixByte
      split_ifs <;> first | rfl | omega
    rw [this]
    rfl

theorem rtakeWhile_all (p : Nat → Bool) (l : List Nat) : ∀ b ∈ l.rtakeWhile p, p b = true := by
  intro b hb
  unfold List.rtakeWhile at hb
  exact List.mem_takeWhile_imp (List.mem_reverse.mp hb)

/-- The hypotheses of `self_image_core`, from the repaired name being what the
converter gives back. -/
theorem self_image (cfg : Config) (last : List Nat) (hl : NulFree last)
    (h : latin1_to_utf8 (fix_invalid (repaired cfg last)) = last) :
    fix_invalid (repaired cfg last) = repaired cfg last ∧ ∀ b ∈ repaired cfg last, b < 0x80 := by
  by_cases hz : cfg.fix_ws_flag ≠ 0
  · have hrep : repaired cfg last = fix_whitespace cfg.fix_ws_flag last := by
      unfold repaired; rw [if_pos hz]
    rw [hrep] at h ⊢
    have hnt := nulFree_fix_whitespace cfg.fix_ws_flag last hl
    have htrim := trimmed_fix_whitespace cfg.fix_ws_flag last hl
    have heq := fix_whitespace_eq_copy cfg.fix_ws_flag last hl
    generalize fix_whitespace cfg.fix_ws_flag last = t at *
    -- every byte of `t` is a copy of a byte that came out of the converter
    have hclean : ∀ b ∈ t, b = 9 ∨ b = 10 ∨ b = 13 ∨ 0x20 ≤ b := by
      intro b hb
      rw [heq] at hb
      obtain ⟨z, hz1, rfl⟩ := List.mem_map.mp hb
      have hz2 : z ∈ last :=
        (List.dropWhile_suffix _).subset ((List.rdropWhile_prefix _ _).subset hz1)
      rw [← h] at hz2
      exact copy_clean _ z (latin1_fix_clean t hnt z hz2)
    -- the converter's output starts with a byte outside the whitespace class
    have hdrop : last.dropWhile (is_whitespace cfg.fix_ws_flag) = last := by
      cases t with
      | nil =>
        have : last = [] := by rw [← h]; rfl
        rw [this]; rfl
      | cons b t =>
        obtain ⟨⟨h0, hb⟩, -⟩ := nulFree_cons hnt
        have hws : is_whitespace cfg.fix_ws_flag b = false := htrim.1 b rfl
        have hcb := hclean b (by simp)
        rw [fix_invalid_cons b t h0] at h
        rcases fixByte_cases b h0 hb with ⟨-, hd⟩ | ⟨c, hf, hc, hcb2⟩ | ⟨c, hf, hc, hc2, -⟩
        · omega
        · rw [hf, List.singleton_append, latin1_cons_low c _ hc] at h
          have hwc : is_whitespace cfg.fix_ws_flag c = false := by
            rcases hcb2 with rfl | rfl | rfl
            · exact hws
            · exact not_ws_of_high _ _ (by decide)
            · exact not_ws_of_high _ _ (by decide)
          rw [← h, List.dropWhile_cons, hwc]
          rfl
        · obtain ⟨e1, e2⟩ := latin1_bytes c hc2 hc
          rw [hf, List.singleton_append] at h
          simp only [latin1_to_utf8, if_neg (show ¬ c < 0x80 by omega), e1] at h
          have hwc : is_whitespace cfg.fix_ws_flag (if c < 0xC0 then 0xC2 else 0xC3) = false := by
            apply not_ws_of_high
            split_ifs <;> decide
          rw [← h, List.dropWhile_cons, hwc]
          rfl
    rw [hdrop] at heq
    have hlen : t.length = (last.rdropWhile (is_whitespace cfg.fix_ws_flag)).length := by
      rw [heq, List.length_map]
    have htake : last.rdropWhile (is_whitespace cfg.fix_ws_flag) = last.take t.length := by
      rw [hlen]
      exact List.prefix_iff_eq_take.mp (List.rdropWhile_prefix _ _)
    have hdr : last.drop t.length = last.rtakeWhile (is_whitespace cfg.fix_ws_flag) := by
      have h1 := rdropWhile_append_rtakeWhile (is_whitespace cfg.fix_ws_flag) last
      have h2 := List.take_append_drop t.length last
      rw [htake] at h1
      exact (List.append_cancel_left (h1.trans h2.symm)).symm
    apply self_image_core cfg.fix_ws_flag t hnt
    · rw [h, ← htake]
      exact heq
    · rw [h, hdr]
      exact rtakeWhile_all _ _
  · have hrep : repaired cfg last = last := by
      unfold repaired; rw [if_neg hz]
    rw [hrep] at h ⊢
    apply self_image_core 0 last hl
    · rw [h, List.take_length]
      have : copy_byte 0 = id := by
        funext z
        unfold copy_byte
        rw [if_neg (by omega)]
        rfl
      rw [this, List.map_id]
    · rw [h, List.drop_length]
      simp

@[simp] theorem stderr_log_tag (cfg : Config) (level : Int) (p t : List Nat) (st : State) :
    (log_tag cfg level p t st).stderr = st.stderr := by
  unfold log_tag
  split_ifs <;> rfl

/-- When `walker` returns before `Rename`, nothing is written to `stderr`. -/
theorem stderr_walker_name (cfg : Config) (iconv : List Nat → Nat → IconvResult)
    (path rest last : List Nat) (st : State) (h : rename_target cfg iconv last = none) :
    (walker_name cfg iconv path rest last st).2.stderr = st.stderr := by
  unfold rename_target at h
  unfold walker_name
  simp only at h ⊢
  split_ifs at h ⊢
  all_goals first
    | (simp only [stderr_log_tag] <;> rfl)
    | (rw [conv_some] at h; exact absurd h (Option.some_ne_none _))

/-- Claim C14: with the converter being the Latin-1 to UTF-8 map, whenever
`walker` reaches `Rename` the new name differs from the entry's base name, so
`rename_in_dir` is never called with equal old and new names; `nm` goes up
exactly when `Rename` is reached; and an ASCII or UTF-8 name that whitespace
repair leaves as it is makes `walker` return before `Rename`, with `nm`
unchanged, no call to `rename_in_dir` and nothing written to `stderr`. -/
theorem walker_never_renames_onto_itself (cfg : Config)
    (iconv : List Nat → Nat → IconvResult) (path : List Nat) (flags : FtwFlag) (st : State)
    (hp : NulFree path) (hk : flags.counted = true)
    (hic : ∀ x, NulFree x → x.length ≤ (path_last (cstr path)).length →
      conv iconv x = some (latin1_to_utf8 x)) :
    (∀ np, rename_target cfg iconv (path_last (cstr path)) = some np →
      np ≠ path_last (cstr path) ∧ (walker cfg iconv path flags st).2.nm = st.nm + 1) ∧
    (rename_target cfg iconv (path_last (cstr path)) = none →
      (walker cfg iconv path flags st).2.nm = st.nm ∧
      (walker cfg iconv path flags st).2.stderr = st.stderr ∧
      ∀ d o n, Call.rename_in_dir d o n ∈ (walker cfg iconv path flags st).2.calls →
        Call.rename_in_dir d o n ∈ st.calls) ∧
    (∀ d o n, Call.rename_in_dir d o n ∈ (walker cfg iconv path flags st).2.calls →
      Call.rename_in_dir d o n ∈ st.calls ∨ n ≠ o) ∧
    (tested_name cfg path = path_last (cstr path) →
      (is_ascii (path_last (cstr path)) = 1 ∨ is_utf_8 (path_last (cstr path)) = 1) →
      rename_target cfg iconv (path_last (cstr path)) = none) := by
  have hl := nulFree_path_last (cstr path) (by rw [cstr_nulFree path hp]; exact hp)
  obtain ⟨l1, l2, l3⟩ := walker_link cfg iconv path flags st hk
  have hne : ∀ np, rename_target cfg iconv (path_last (cstr path)) = some np →
      np ≠ path_last (cstr path) := by
    intro np h hsame
    have hnt := nulFree_repaired cfg _ hl
    rcases rename_target_cases cfg iconv _ np hl hic h with
      ⟨-, h1, h2, -⟩ | ⟨ha, -, hi, h1⟩ | ⟨-, -, -, hf, h1⟩
    · exact h2 (h1.symm.trans hsame)
    · have hfix := fix_invalid_iso _ hnt hi
      have himg : latin1_to_utf8 (fix_invalid (repaired cfg (path_last (cstr path))))
          = path_last (cstr path) := by rw [hfix, ← h1, hsame]
      obtain ⟨-, hlow⟩ := self_image cfg _ hl himg
      have hasc : is_ascii (repaired cfg (path_last (cstr path))) = 1 := by
        rw [is_ascii_one_iff _ hnt]
        intro b hb
        have h3 := hlow b hb
        rcases (is_iso8859_1_one_iff _ hnt).mp hi b hb with h4 | h4
        · exact h4
        · omega
      rw [ha] at hasc
      exact absurd hasc (by decide)
    · have himg : latin1_to_utf8 (fix_invalid (repaired cfg (path_last (cstr path))))
          = path_last (cstr path) := by rw [← h1, hsame]
      exact hf (self_image cfg _ hl himg).1
  refine ⟨fun np h => ⟨hne np h, l2 np h⟩, fun h => ⟨l1 h, ?_, ?_⟩, ?_, ?_⟩
  · obtain ⟨st1, hck, -, -, -, -, -, h6, -⟩ := count_kind_counted flags st hk
    have hw : walker cfg iconv path flags st =
        walker_name cfg iconv (cstr path) (path_rest (cstr path)) (path_last (cstr path))
          st1 := by
      unfold walker; rw [hck]
    rw [hw, stderr_walker_name cfg iconv _ _ _ st1 h, h6]
  · intro d o n hmem
    rcases (l3 d o n).mp hmem with h1 | ⟨-, -, -, h4⟩
    · exact h1
    · rw [h] at h4
      exact absurd h4 (by simp)
  · intro d o n hmem
    rcases (l3 d o n).mp hmem with h1 | ⟨-, -, h3, h4⟩
    · exact Or.inl h1
    · right
      rw [h3]
      exact hne n h4
  · intro hsame hacc
    have htn : tested_name cfg path = repaired cfg (path_last (cstr path)) := rfl
    rw [htn] at hsame
    cases htgt : rename_target cfg iconv (path_last (cstr path)) with
    | none => rfl
    | some np =>
      exfalso
      rcases rename_target_cases cfg iconv _ np hl hic htgt with
        ⟨-, -, h2, -⟩ | ⟨ha, hu, -, -⟩ | ⟨ha, hu, -, -, -⟩
      · exact h2 hsame
      · rw [hsame] at ha hu
        rcases hacc with h | h
        · rw [ha] at h; exact absurd h (by decide)
        · rw [hu] at h; exact absurd h (by decide)
      · rw [hsame] at ha hu
        rcases hacc with h | h
        · rw [ha] at h; exact absurd h (by decide)
        · rw [hu] at h; exact absurd h (by decide)

theorem walker_never_renames_onto_itself_witness :
    NulFree [100, 47, 0x63, 0xE9] ∧ FtwFlag.counted .FTW_F = true ∧
    rename_target Config.fix iconv_latin1 (path_last (cstr [100, 47, 0x63, 0xE9]))
      = some [0x63, 0xC3, 0xA9] ∧
    ([0x63, 0xC3, 0xA9] ≠ path_last (cstr [100, 47, 0x63, 0xE9]) ∧
      (walker Config.fix iconv_latin1 [100, 47, 0x63, 0xE9] .FTW_F
        (State.init (one_file_fs [0x63, 0xE9]))).2.nm
        = (State.init (one_file_fs [0x63, 0xE9])).nm + 1) :=
  ⟨by decide, by decide, by decide,
    (walker_never_renames_onto_itself Config.fix iconv_latin1 [100, 47, 0x63, 0xE9] .FTW_F
      (State.init (one_file_fs [0x63, 0xE9])) (by decide) (by decide)
      (fun x hx hlen => conv_iconv_latin1 x hx (le_trans hlen (by decide)))).1
      [0x63, 0xC3, 0xA9] (by decide)⟩

end Pfs2utf8
